import Mathlib

/-! # Milestones report of the GitHub section (`core/section/github/milestones.go`)

A shallow embedding of `milestonesToSort.Less`, `getMilestones` and
`refreshMilestones`, followed by the properties established about them.

Conventions of the embedding.

* A Go pointer that may be `nil` is an `Option`; dereferencing `none` is a run-time
  panic.  A computation that may panic has type `Option _`, and `none` is the panic.
* A Go `error` is a `String`; `err == nil` is `none`.
* Package `time`, `fmt.Sprintf` and the remote client are library code.  The two
  comparisons of `time.Time` are embedded directly (they compare instants); the
  functions that produce or read text are taken as parameters (`Stdlib`), so every
  theorem that takes a `Stdlib` holds for each implementation of them.  `goStdlib` is
  one such implementation, used to evaluate examples and to state what the completion
  message looks like.
* The remote client is a state machine: a call to `ListMilestones` takes the state of
  the remote side and returns the reply together with the next state.
* Logging (`log.IfErr`, `log.Error`) has no effect on the values computed and is left out.
-/

namespace Github

/-! ## Library types -/

/-- A `time.Time`, as the instant it denotes: nanoseconds elapsed since
January 1, year 1, 00:00:00 UTC.  The zero `time.Time{}` is that instant itself. -/
structure Time where
  ns : Int
  deriving DecidableEq, Repr

namespace Time

/-- The zero value `time.Time{}`. -/
def zero : Time := ⟨0⟩

/-- `t.Before(u)`: the instant `t` is strictly earlier than `u`. -/
def Before (t u : Time) : Bool := decide (t.ns < u.ns)

/-- `t.After(u)`: the instant `t` is strictly later than `u`. -/
def After (t u : Time) : Bool := decide (u.ns < t.ns)

end Time

/-- The text-producing library functions the file calls.

* `Format t layout` is `t.Format(layout)`.
* `Parse layout value` is `time.Parse(layout, value)`; on failure the library returns
  the zero `Time` next to the error, which is how `parsedOrZero` reads it.
* `Sprintf2f num den` is `fmt.Sprintf("%2.0f%%", float64(num)/float64(den))`. -/
structure Stdlib where
  Format : Time → String → String
  Parse : String → String → Except String Time
  Sprintf2f : Int → Int → String

/-- The first result of `time.Parse(layout, value)`: the parsed time, or the zero
`Time` when parsing failed. -/
def parsedOrZero (lib : Stdlib) (layout value : String) : Time :=
  match lib.Parse layout value with
  | .ok t => t
  | .error _ => Time.zero

/-- Go `int` arithmetic wraps around in 64-bit two's complement. -/
def wrapInt (x : Int) : Int := (x + 2 ^ 63) % 2 ^ 64 - 2 ^ 63

/-! ## `githubMilestone` and its ordering -/

/-- One entry of the report. -/
structure githubMilestone where
  Repo : String
  Name : String
  URL : String
  IsOpen : Bool
  OpenIssues : Int
  ClosedIssues : Int
  CompleteMsg : String
  DueDate : String
  UpdatedAt : String
  deriving DecidableEq, Repr

/-- The layout constant `milestonesTimeFormat`. -/
def milestonesTimeFormat : String := "January 2 2006"

/-- The date `Less` reads off an entry: `time.Parse(milestonesTimeFormat, m.UpdatedAt)`
with the error dropped. -/
def updatedDate (lib : Stdlib) (m : githubMilestone) : Time :=
  parsedOrZero lib milestonesTimeFormat m.UpdatedAt

/-- `milestonesToSort.Less`, on the two elements `s[i]` and `s[j]`. -/
def Less (lib : Stdlib) (si sj : githubMilestone) : Bool :=
  if !si.IsOpen && sj.IsOpen then
    true
  else if si.IsOpen && !sj.IsOpen then
    false
  else
    let iDate := updatedDate lib si
    let jDate := updatedDate lib sj
    iDate.Before jDate

/-! ## `sort.Stable`

`sort.Stable` is library code.  It is embedded as the insertion sort the library runs
on every block of at most 20 elements; the merging of longer inputs is not embedded.
`Stable_unique` below shows that the stably sorted arrangement of a list under `Less`
is unique, so every implementation that meets the documented contract of
`sort.Stable` (the result is in order, elements that compare equal keep their order)
returns the list computed here. -/

/-- The inner loop of the library's `insertionSort`:
`for j := i; j > a && data.Less(j, j-1); j-- { data.Swap(j, j-1) }`.
The sorted prefix is passed back to front, so its head is element `j-1`. -/
def sinkInto {α : Type} (less : α → α → Bool) (x : α) : List α → List α
  | [] => [x]
  | y :: ys => if less x y then y :: sinkInto less x ys else x :: y :: ys

/-- The outer loop of the library's `insertionSort`, the prefix kept back to front. -/
def insertionLoop {α : Type} (less : α → α → Bool) : List α → List α → List α
  | prefixRev, [] => prefixRev
  | prefixRev, x :: rest => insertionLoop less (sinkInto less x prefixRev) rest

/-- The library's insertion sort. -/
def insertionSort {α : Type} (less : α → α → Bool) (data : List α) : List α :=
  (insertionLoop less [] data).reverse

/-- `sort.Stable(milestonesToSort(ret))`. -/
def Stable (lib : Stdlib) (ret : List githubMilestone) : List githubMilestone :=
  insertionSort (Less lib) ret

/-! ## The remote API -/

namespace gogithub

/-- The fields of `gogithub.Milestone` the file reads; each is a pointer in the
library's declaration.  The elements of a reply themselves are taken to be present. -/
structure Milestone where
  Title : Option String
  HTMLURL : Option String
  State : Option String
  OpenIssues : Option Int
  ClosedIssues : Option Int
  DueOn : Option Time
  UpdatedAt : Option Time
  ClosedAt : Option Time
  deriving DecidableEq, Repr

/-- The pagination part `gogithub.ListOptions`. -/
structure ListOptions where
  PerPage : Int
  deriving DecidableEq, Repr

/-- The request parameters `gogithub.MilestoneListOptions`; `SortBy` is its field
`Sort`. -/
structure MilestoneListOptions where
  SortBy : String
  State : String
  ListOptions : ListOptions
  deriving DecidableEq, Repr

/-- A `*gogithub.Client`, as far as `client.Issues.ListMilestones(owner, repo, opts)`
goes: from the state `σ` of the remote side it yields the reply (the milestones, or
the error) and the next state. -/
structure Client (σ : Type) where
  ListMilestones : σ → String → String → MilestoneListOptions →
    Except String (List Milestone) × σ

end gogithub

/-! ## Configuration and report data

`githubConfig`, its list element and `githubRender` are declared elsewhere in the
package; the fields below are the ones this file reads or writes. -/

/-- An element of `config.Lists`. -/
structure githubBranch where
  Owner : String
  Repo : String
  Included : Bool
  deriving DecidableEq, Repr

/-- The configuration of the section. -/
structure githubConfig where
  Lists : List githubBranch
  BranchLines : Int
  SincePtr : Option Time
  deriving DecidableEq, Repr

/-- The data handed to the template. -/
structure githubRender where
  Milestones : List githubMilestone
  OpenMS : Int
  ClosedMS : Int
  deriving DecidableEq, Repr

/-! ## `getMilestones` -/

/-- One call of `ListMilestones` as it happened: the arguments and the reply.  The
log of calls is not a variable of the source; it is kept so that statements can speak
about the requests a run issued. -/
structure Call where
  Owner : String
  Repo : String
  opts : gogithub.MilestoneListOptions
  reply : Except String (List gogithub.Milestone)

/-- The variables of `getMilestones` that live across loop iterations, the state of
the remote side and the log of calls.  `hadRepo` is the `map[string]bool`: a key that
was never stored reads as `false`. -/
structure Vars (σ : Type) where
  ret : List githubMilestone
  hadRepo : String → Bool
  remote : σ
  calls : List Call

/-- `rName := orb.Owner + "/" + orb.Repo`. -/
def rNameOf (orb : githubBranch) : String := orb.Owner ++ "/" ++ orb.Repo

/-- Lines 138-145: the value of `include` for the entry `v` of a reply to a request
with the given `state`.  With a cutoff set, `*v.ClosedAt` is evaluated
for every entry of a "closed" reply, and panics when `v.ClosedAt` is `nil`. -/
def includeOf (config : githubConfig) (state : String) (v : gogithub.Milestone) :
    Option Bool :=
  if state = "closed" then
    match config.SincePtr with
    | none => some true
    | some since =>
      match v.ClosedAt with
      | none => none
      | some closedAt => if since.After closedAt then some false else some true
  else
    some true

/-- Lines 147-167: the entry appended for `v`; the dereferences of `v.Title`,
`v.HTMLURL`, `v.State`, `v.OpenIssues` and `v.ClosedIssues` panic on `nil`. -/
def entryOf (lib : Stdlib) (rName : String) (v : gogithub.Milestone) :
    Option githubMilestone :=
  let dd :=
    match v.DueOn with
    | some dueOn => "Due on " ++ lib.Format dueOn milestonesTimeFormat ++ "."
    | none => "No due date."
  let up :=
    match v.UpdatedAt with
    | some updatedAt => lib.Format updatedAt milestonesTimeFormat
    | none => ""
  match v.Title, v.HTMLURL, v.State, v.OpenIssues, v.ClosedIssues with
  | some title, some url, some st, some openIssues, some closedIssues =>
    some {
      Repo := rName
      Name := title
      URL := url
      IsOpen := decide (st = "open")
      OpenIssues := openIssues
      ClosedIssues := closedIssues
      CompleteMsg :=
        lib.Sprintf2f (wrapInt (closedIssues * 100)) (wrapInt (openIssues + closedIssues))
      DueDate := dd
      UpdatedAt := up }
  | _, _, _, _, _ => none

/-- The body of `for _, v := range guff` (lines 138-168): the new value of `ret`. -/
def visitMilestone (lib : Stdlib) (config : githubConfig) (rName state : String)
    (ret : List githubMilestone) (v : gogithub.Milestone) : Option (List githubMilestone) :=
  match includeOf config state v with
  | none => none
  | some false => some ret
  | some true =>
    match entryOf lib rName v with
    | none => none
    | some m => some (ret ++ [m])

/-- The loop `for _, v := range guff`. -/
def rangeGuff (lib : Stdlib) (config : githubConfig) (rName state : String) :
    List gogithub.Milestone → List githubMilestone → Option (List githubMilestone)
  | [], ret => some ret
  | v :: guff, ret =>
    match visitMilestone lib config rName state ret v with
    | none => none
    | some ret1 => rangeGuff lib config rName state guff ret1

/-- The loop `for _, state := range []string{"open", "closed"}` (lines 124-171) over the
states still to visit.  The result is the variables after the loop together with the
error of the `return ret, err` that left it, if one did; `none` is a panic. -/
def rangeStates {σ : Type} (lib : Stdlib) (client : gogithub.Client σ)
    (config : githubConfig) (orb : githubBranch) (rName : String) :
    List String → Vars σ → Option (Vars σ × Option String)
  | [], vars => some (vars, none)
  | state :: states, vars =>
    let opts : gogithub.MilestoneListOptions :=
      { SortBy := "updated", State := state, ListOptions := { PerPage := config.BranchLines } }
    let answer := client.ListMilestones vars.remote orb.Owner orb.Repo opts
    let vars1 : Vars σ :=
      { vars with
        remote := answer.2
        calls := vars.calls ++ [{ Owner := orb.Owner, Repo := orb.Repo, opts := opts,
                                  reply := answer.1 }] }
    match answer.1 with
    | .error err => some (vars1, some err)
    | .ok guff =>
      match rangeGuff lib config rName state guff vars1.ret with
      | none => none
      | some ret1 => rangeStates lib client config orb rName states { vars1 with ret := ret1 }

/-- The loop `for _, orb := range config.Lists` (lines 118-176) over the entries still
to visit; the result is read as for `rangeStates`. -/
def rangeLists {σ : Type} (lib : Stdlib) (client : gogithub.Client σ)
    (config : githubConfig) : List githubBranch → Vars σ → Option (Vars σ × Option String)
  | [], vars => some (vars, none)
  | orb :: lists, vars =>
    if orb.Included then
      let rName := rNameOf orb
      let visited :=
        if !vars.hadRepo rName then
          rangeStates lib client config orb rName ["open", "closed"] vars
        else
          some (vars, none)
      match visited with
      | none => none
      | some (vars1, some err) => some (vars1, some err)
      | some (vars1, none) =>
        rangeLists lib client config lists
          { vars1 with hadRepo := fun k => if k = rName then true else vars1.hadRepo k }
    else
      rangeLists lib client config lists vars

/-- What a call of `getMilestones` leaves behind: its two results, the state of the
remote side and the log of the calls it made. -/
structure Fetched (σ : Type) where
  ret : List githubMilestone
  err : Option String
  remote : σ
  calls : List Call

/-- The variables at entry of the loop over `config.Lists`. -/
def initVars {σ : Type} (remote : σ) : Vars σ :=
  { ret := [], hadRepo := fun _ => false, remote := remote, calls := [] }

/-- `getMilestones(client, config)`, started with the remote side in state `remote`;
`none` is a panic. -/
def getMilestones {σ : Type} (lib : Stdlib) (client : gogithub.Client σ) (remote : σ)
    (config : githubConfig) : Option (Fetched σ) :=
  match rangeLists lib client config config.Lists (initVars remote) with
  | none => none
  | some (vars, some err) =>
    some { ret := vars.ret, err := some err, remote := vars.remote, calls := vars.calls }
  | some (vars, none) =>
    some { ret := Stable lib vars.ret, err := none, remote := vars.remote,
           calls := vars.calls }

/-! ## `refreshMilestones` -/

/-- The loop `for _, v := range gr.Milestones` (lines 193-199) on the two counters.
A Go slice has fewer than `2^63` elements, so the increments do not wrap. -/
def countLoop : List githubMilestone → Int × Int → Int × Int
  | [], counters => counters
  | v :: rest, (openMS, closedMS) =>
    if v.IsOpen then countLoop rest (openMS + 1, closedMS)
    else countLoop rest (openMS, closedMS + 1)

/-- What a call of `refreshMilestones` leaves behind: the render data `*gr`, the
returned error, the state of the remote side and the log of the calls made. -/
structure Refreshed (σ : Type) where
  gr : githubRender
  err : Option String
  remote : σ
  calls : List Call

/-- `refreshMilestones(gr, config, client)`; `none` is a panic.  The assignment
`gr.Milestones, err = getMilestones(client, config)` stores both results before `err`
is tested. -/
def refreshMilestones {σ : Type} (lib : Stdlib) (client : gogithub.Client σ) (remote : σ)
    (gr : githubRender) (config : githubConfig) : Option (Refreshed σ) :=
  match getMilestones lib client remote config with
  | none => none
  | some fetched =>
    let gr1 : githubRender := { gr with Milestones := fetched.ret }
    match fetched.err with
    | some err => some { gr := gr1, err := some err, remote := fetched.remote,
                         calls := fetched.calls }
    | none =>
      let counters := countLoop gr1.Milestones (0, 0)
      some { gr := { gr1 with OpenMS := counters.1, ClosedMS := counters.2 }, err := none,
             remote := fetched.remote, calls := fetched.calls }

/-! ## A reference implementation of the library functions

`goStdlib` follows the library for the one layout and the one format verb the file
uses.  Times are formatted in UTC.  `Sprintf2f` computes with exact fractions.  That
agrees with `float64` arithmetic for `0 ≤ num ≤ 100 * den` and `0 < den < 2^45`: both
operands convert exactly, and a quotient that is not midway between two whole numbers
is farther from the midway point than the rounding of the division moves it.  For a
zero denominator it yields the texts of NaN and of the infinities.  The statements
about the completion message are made for this implementation; no other statement
depends on it. -/

namespace Ref

/-- Decimal digits of `n`, most significant first, by repeated division; `fuel` bounds
the number of digits. -/
def digitsAux : Nat → Nat → List Char → List Char
  | 0, _, acc => acc
  | fuel + 1, n, acc =>
    let acc1 := Char.ofNat (48 + n % 10) :: acc
    if n / 10 = 0 then acc1 else digitsAux fuel (n / 10) acc1

/-- Decimal digits of `n`. -/
def digits (n : Nat) : List Char := digitsAux (n + 1) n []

/-- Pads `cs` on the left with `pad` up to `width` characters. -/
def padLeft (width : Nat) (pad : Char) (cs : List Char) : List Char :=
  List.replicate (width - cs.length) pad ++ cs

/-- The table `longMonthNames`. -/
def longMonthNames : List String :=
  ["January", "February", "March", "April", "May", "June", "July", "August",
   "September", "October", "November", "December"]

/-- Year, month and day of the day numbered `days`, where day 0 is January 1, year 1
(proleptic Gregorian calendar). -/
def civilOfDays (days : Int) : Int × Nat × Nat :=
  let z := days + 306
  let era := z / 146097
  let doe := (z % 146097).toNat
  let yoe := (doe - doe / 1460 + doe / 36524 - doe / 146096) / 365
  let doy := doe - (365 * yoe + yoe / 4 - yoe / 100)
  let mp := (5 * doy + 2) / 153
  let d := doy - (153 * mp + 2) / 5 + 1
  let m := if mp < 10 then mp + 3 else mp - 9
  let y := (yoe : Int) + era * 400
  (if m ≤ 2 then y + 1 else y, m, d)

/-- The number of the day with the given year, month and day; inverse of
`civilOfDays`. -/
def daysOfCivil (year : Int) (month day : Nat) : Int :=
  let y := if month ≤ 2 then year - 1 else year
  let era := y / 400
  let yoe := (y % 400).toNat
  let mp := if month > 2 then month - 3 else month + 9
  let doy := (153 * mp + 2) / 5 + day - 1
  let doe := yoe * 365 + yoe / 4 - yoe / 100 + doy
  era * 146097 + (doe : Int) - 306

/-- Nanoseconds in a day. -/
def nsPerDay : Int := 86400000000000

/-- `daysIn(month, year)`. -/
def daysIn (month : Nat) (year : Int) : Nat :=
  if month = 2 then
    (if year % 4 = 0 ∧ (year % 100 ≠ 0 ∨ year % 400 = 0) then 29 else 28)
  else if month = 4 ∨ month = 6 ∨ month = 9 ∨ month = 11 then 30
  else 31

/-- The year as the layout element `2006` prints it: at least four digits. -/
def yearText (year : Int) : List Char :=
  if year < 0 then '-' :: padLeft 4 '0' (digits year.natAbs)
  else padLeft 4 '0' (digits year.toNat)

/-- `t.Format("January 2 2006")` for a time in UTC. -/
def formatDate (t : Time) : String :=
  let (y, m, d) := civilOfDays (t.ns / nsPerDay)
  (longMonthNames.getD (m - 1) "") ++ " " ++ String.mk (digits d) ++ " " ++
    String.mk (yearText y)

/-- The value of a decimal digit. -/
def digitValue (c : Char) : Option Nat :=
  if 48 ≤ c.toNat ∧ c.toNat ≤ 57 then some (c.toNat - 48) else none

/-- ASCII letters compare without regard to case, as in the library's `match`. -/
def sameFold (a b : Char) : Bool :=
  let isLetter := fun (c : Char) => (65 ≤ c.toNat ∧ c.toNat ≤ 90) ∨ (97 ≤ c.toNat ∧ c.toNat ≤ 122)
  let lower := fun (c : Char) => if c.toNat ≤ 90 then c.toNat + 32 else c.toNat
  decide (a = b) || (decide (isLetter a) && decide (isLetter b) && decide (lower a = lower b))

/-- Strips `name` from the front of `value`, case-insensitively. -/
def stripName : List Char → List Char → Option (List Char)
  | [], value => some value
  | _ :: _, [] => none
  | n :: name, c :: value => if sameFold c n then stripName name value else none

/-- The library's `lookup` in a table of names: index of the first name that starts
`value`, counted from `index`, and what follows it. -/
def lookup : List String → Nat → List Char → Option (Nat × List Char)
  | [], _, _ => none
  | name :: names, index, value =>
    match stripName name.toList value with
    | some rest => some (index, rest)
    | none => lookup names (index + 1) value

/-- A blank of the layout: the value must be at its end or continue with blanks, which
are skipped. -/
def skipBlank (value : List Char) : Option (List Char) :=
  match value with
  | [] => some []
  | c :: _ => if c = ' ' then some (value.dropWhile (· = ' ')) else none

/-- The library's `getnum` for a day: one or two digits. -/
def getDay : List Char → Option (Nat × List Char)
  | [] => none
  | c :: rest =>
    match digitValue c with
    | none => none
    | some hi =>
      match rest with
      | [] => some (hi, [])
      | c1 :: rest1 =>
        match digitValue c1 with
        | none => some (hi, rest)
        | some lo => some (hi * 10 + lo, rest1)

/-- Four digits of a year. -/
def getYear : List Char → Option (Nat × List Char)
  | a :: b :: c :: d :: rest =>
    match digitValue a, digitValue b, digitValue c, digitValue d with
    | some a, some b, some c, some d => some (a * 1000 + b * 100 + c * 10 + d, rest)
    | _, _, _, _ => none
  | _ => none

/-- `time.Parse("January 2 2006", value)`. -/
def parseDate (value : String) : Except String Time :=
  match lookup longMonthNames 1 value.toList with
  | none => .error "bad month"
  | some (month, v1) =>
    match skipBlank v1 with
    | none => .error "bad value"
    | some v2 =>
      match getDay v2 with
      | none => .error "bad day"
      | some (day, v3) =>
        match skipBlank v3 with
        | none => .error "bad value"
        | some v4 =>
          match getYear v4 with
          | none => .error "bad year"
          | some (year, v5) =>
            if v5 ≠ [] then .error "extra text"
            else if day < 1 ∨ day > daysIn month year then .error "day out of range"
            else .ok ⟨daysOfCivil year month day * nsPerDay⟩

/-- Nearest integer to `num / den` for a positive `den`, a tie going to the even
neighbour. -/
def roundHalfEven (num den : Nat) : Nat :=
  let q := num / den
  let r := num % den
  if 2 * r < den then q
  else if 2 * r > den then q + 1
  else if q % 2 = 0 then q else q + 1

/-- `fmt.Sprintf("%2.0f%%", float64(num)/float64(den))`. -/
def sprintf2f (num den : Int) : String :=
  if den = 0 then
    (if num = 0 then "NaN%" else if 0 < num then "+Inf%" else "-Inf%")
  else
    let negative := decide (num < 0) != decide (den < 0)
    let body := digits (roundHalfEven num.natAbs den.natAbs)
    String.mk (padLeft 2 ' ' (if negative then '-' :: body else body)) ++ "%"

end Ref

/-- The reference implementation of the library functions; a layout other than
`milestonesTimeFormat` is not supported and yields the empty text or an error. -/
def goStdlib : Stdlib where
  Format := fun t layout => if layout = milestonesTimeFormat then Ref.formatDate t else ""
  Parse := fun layout value =>
    if layout = milestonesTimeFormat then Ref.parseDate value else .error "unsupported layout"
  Sprintf2f := Ref.sprintf2f

/-! ## Notions used in the statements -/

/-- The request of a logged call: owner, repository and options. -/
def Call.request (c : Call) : String × String × gogithub.MilestoneListOptions :=
  (c.Owner, c.Repo, c.opts)

/-- The request `getMilestones` issues for the entry `orb` and the given `state`. -/
def requestOf (config : githubConfig) (orb : githubBranch) (state : String) :
    String × String × gogithub.MilestoneListOptions :=
  (orb.Owner, orb.Repo,
    { SortBy := "updated", State := state, ListOptions := { PerPage := config.BranchLines } })

/-- The entries the loop over the reply of a logged call appends to `ret`; a failed
call appends none. -/
def entriesOfCall (lib : Stdlib) (config : githubConfig) (c : Call) :
    Option (List githubMilestone) :=
  match c.reply with
  | .ok guff => rangeGuff lib config (c.Owner ++ "/" ++ c.Repo) c.opts.State guff []
  | .error _ => some []

/-- The five fields `entryOf` dereferences are set. -/
def hasEntryFields (v : gogithub.Milestone) : Bool :=
  v.Title.isSome && v.HTMLURL.isSome && v.State.isSome && v.OpenIssues.isSome &&
    v.ClosedIssues.isSome

/-- The loop body does not panic on `v`: the fields `entryOf` dereferences are set,
and so is the close time where line 141 dereferences it. -/
def noPanicOn (config : githubConfig) (state : String) (v : gogithub.Milestone) : Bool :=
  hasEntryFields v &&
    (!(decide (state = "closed") && config.SincePtr.isSome) || v.ClosedAt.isSome)

/-- The repository set of the specification: the included entries of the list, each
owner/name identifier kept at its first occurrence only, in the order of the list. -/
def resolvedRepositories : List githubBranch → List githubBranch
  | [] => []
  | orb :: lists =>
    if orb.Included then
      orb :: (resolvedRepositories lists).filter (fun o => decide (rNameOf o ≠ rNameOf orb))
    else
      resolvedRepositories lists

/-- The entries of the list that `rangeLists` queries when it starts with the map
`hadRepo`. -/
def resolveFrom (hadRepo : String → Bool) : List githubBranch → List githubBranch
  | [] => []
  | orb :: lists =>
    if orb.Included then
      (if hadRepo (rNameOf orb) then [] else [orb]) ++
        resolveFrom (fun k => if k = rNameOf orb then true else hadRepo k) lists
    else
      resolveFrom hadRepo lists

/-! ## Example inputs

A repository `acme/widgets` with one open milestone and three closed ones, two of
which were last updated on the same day, and clients that answer for it. -/

namespace Example

/-- Midnight UTC of the given day. -/
def day (year : Int) (month d : Nat) : Time := ⟨Ref.daysOfCivil year month d * Ref.nsPerDay⟩

/-- The open milestone `v2.0`: three open issues, one closed. -/
def openV2 : gogithub.Milestone :=
  { Title := some "v2.0", HTMLURL := some "https://github.com/acme/widgets/milestone/4",
    State := some "open", OpenIssues := some 3, ClosedIssues := some 1,
    DueOn := some (day 2017 6 1), UpdatedAt := some (day 2017 3 5), ClosedAt := none }

/-- The closed milestone `v1.0`, closed and last updated on January 10, 2017. -/
def closedV1 : gogithub.Milestone :=
  { Title := some "v1.0", HTMLURL := some "https://github.com/acme/widgets/milestone/2",
    State := some "closed", OpenIssues := some 0, ClosedIssues := some 4,
    DueOn := none, UpdatedAt := some (day 2017 1 10), ClosedAt := some (day 2017 1 10) }

/-- The closed milestone `v1.1`, closed on January 9, 2017 and last updated on the
same day as `v1.0`. -/
def closedV11 : gogithub.Milestone :=
  { Title := some "v1.1", HTMLURL := some "https://github.com/acme/widgets/milestone/3",
    State := some "closed", OpenIssues := some 0, ClosedIssues := some 2,
    DueOn := none, UpdatedAt := some (day 2017 1 10), ClosedAt := some (day 2017 1 9) }

/-- The closed milestone `v0.9`, closed and last updated on June 1, 2016. -/
def closedV09 : gogithub.Milestone :=
  { Title := some "v0.9", HTMLURL := some "https://github.com/acme/widgets/milestone/1",
    State := some "closed", OpenIssues := some 1, ClosedIssues := some 1,
    DueOn := none, UpdatedAt := some (day 2016 6 1), ClosedAt := some (day 2016 6 1) }

/-- A closed milestone for which the remote side reports no close time. -/
def closedNoStamp : gogithub.Milestone :=
  { Title := some "v0.1", HTMLURL := some "https://github.com/acme/widgets/milestone/0",
    State := some "closed", OpenIssues := some 0, ClosedIssues := some 1,
    DueOn := none, UpdatedAt := none, ClosedAt := none }

/-- A remote side without state that answers every request: for `acme/widgets` with
the milestones above, for any other repository with none. -/
def acmeClient : gogithub.Client Unit where
  ListMilestones := fun _ owner repo opts =>
    if owner = "acme" ∧ repo = "widgets" then
      (if opts.State = "open" then (.ok [openV2], ())
       else (.ok [closedV1, closedV11, closedV09], ()))
    else (.ok [], ())

/-- A remote side that answers the "open" request and fails the "closed" one. -/
def failingClient : gogithub.Client Unit where
  ListMilestones := fun _ _ _ opts =>
    if opts.State = "open" then (.ok [openV2], ()) else (.error "502 Bad Gateway", ())

/-- A remote side whose "closed" reply holds a milestone without close time. -/
def noStampClient : gogithub.Client Unit where
  ListMilestones := fun _ _ _ opts =>
    if opts.State = "open" then (.ok [], ()) else (.ok [closedNoStamp], ())

/-- The entry `acme/widgets`, included. -/
def acmeWidgets : githubBranch := { Owner := "acme", Repo := "widgets", Included := true }

/-- One repository, no cutoff. -/
def config : githubConfig := { Lists := [acmeWidgets], BranchLines := 30, SincePtr := none }

/-- One repository, cutoff January 10, 2017. -/
def configSince : githubConfig :=
  { Lists := [acmeWidgets], BranchLines := 30, SincePtr := some (day 2017 1 10) }

/-- The repository `acme/widgets` listed twice, both times included. -/
def configTwice : githubConfig :=
  { Lists := [acmeWidgets, acmeWidgets], BranchLines := 30, SincePtr := none }

/-- Two included entries that differ in owner and in name and have the same
identifier `a/b/c`. -/
def configSlash : githubConfig :=
  { Lists := [{ Owner := "a/b", Repo := "c", Included := true },
              { Owner := "a", Repo := "b/c", Included := true }],
    BranchLines := 30, SincePtr := none }

/-- The entry built from `closedV09`. -/
def entryV09 : githubMilestone :=
  { Repo := "acme/widgets", Name := "v0.9",
    URL := "https://github.com/acme/widgets/milestone/1", IsOpen := false,
    OpenIssues := 1, ClosedIssues := 1, CompleteMsg := "50%",
    DueDate := "No due date.", UpdatedAt := "June 1 2016" }

/-- The entry built from `closedV1`. -/
def entryV1 : githubMilestone :=
  { Repo := "acme/widgets", Name := "v1.0",
    URL := "https://github.com/acme/widgets/milestone/2", IsOpen := false,
    OpenIssues := 0, ClosedIssues := 4, CompleteMsg := "100%",
    DueDate := "No due date.", UpdatedAt := "January 10 2017" }

/-- The entry built from `closedV11`. -/
def entryV11 : githubMilestone :=
  { Repo := "acme/widgets", Name := "v1.1",
    URL := "https://github.com/acme/widgets/milestone/3", IsOpen := false,
    OpenIssues := 0, ClosedIssues := 2, CompleteMsg := "100%",
    DueDate := "No due date.", UpdatedAt := "January 10 2017" }

/-- The entry built from `openV2`. -/
def entryV2 : githubMilestone :=
  { Repo := "acme/widgets", Name := "v2.0",
    URL := "https://github.com/acme/widgets/milestone/4", IsOpen := true,
    OpenIssues := 3, ClosedIssues := 1, CompleteMsg := "25%",
    DueDate := "Due on June 1 2017.", UpdatedAt := "March 5 2017" }

/-- The "open" call for `acme/widgets` as `acmeClient` answers it. -/
def callOpen : Call :=
  { Owner := "acme", Repo := "widgets",
    opts := { SortBy := "updated", State := "open", ListOptions := { PerPage := 30 } },
    reply := .ok [openV2] }

/-- The "closed" call for `acme/widgets` as `acmeClient` answers it. -/
def callClosed : Call :=
  { Owner := "acme", Repo := "widgets",
    opts := { SortBy := "updated", State := "closed", ListOptions := { PerPage := 30 } },
    reply := .ok [closedV1, closedV11, closedV09] }

/-- What `getMilestones` returns for `acmeClient` and `config`. -/
def fetched : Fetched Unit :=
  { ret := [entryV09, entryV1, entryV11, entryV2], err := none, remote := (),
    calls := [callOpen, callClosed] }

/-- What `getMilestones` returns for `acmeClient` and `configSince`. -/
def fetchedSince : Fetched Unit :=
  { ret := [entryV1, entryV2], err := none, remote := (), calls := [callOpen, callClosed] }

/-- What `refreshMilestones` leaves for `acmeClient` and `config`. -/
def refreshed : Refreshed Unit :=
  { gr := { Milestones := [entryV09, entryV1, entryV11, entryV2], OpenMS := 1, ClosedMS := 3 },
    err := none, remote := (), calls := [callOpen, callClosed] }

/-- The "closed" call for `acme/widgets` as `failingClient` answers it. -/
def callClosedFailed : Call :=
  { Owner := "acme", Repo := "widgets",
    opts := { SortBy := "updated", State := "closed", ListOptions := { PerPage := 30 } },
    reply := .error "502 Bad Gateway" }

/-- What `getMilestones` returns for `failingClient` and `config`. -/
def fetchedFailed : Fetched Unit :=
  { ret := [entryV2], err := some "502 Bad Gateway", remote := (),
    calls := [callOpen, callClosedFailed] }

/-- A milestone without issues and without dates. -/
def openEmpty : gogithub.Milestone :=
  { Title := some "v3.0", HTMLURL := some "https://github.com/acme/widgets/milestone/5",
    State := some "open", OpenIssues := some 0, ClosedIssues := some 0,
    DueOn := none, UpdatedAt := none, ClosedAt := none }

/-- An open milestone with nineteen open issues and one closed. -/
def openV4 : gogithub.Milestone :=
  { Title := some "v4.0", HTMLURL := some "https://github.com/acme/widgets/milestone/6",
    State := some "open", OpenIssues := some 19, ClosedIssues := some 1,
    DueOn := none, UpdatedAt := some (day 2017 3 6), ClosedAt := none }

/-- The entry built from `openEmpty`. -/
def entryEmpty : githubMilestone :=
  { Repo := "acme/widgets", Name := "v3.0",
    URL := "https://github.com/acme/widgets/milestone/5", IsOpen := true,
    OpenIssues := 0, ClosedIssues := 0, CompleteMsg := "NaN%",
    DueDate := "No due date.", UpdatedAt := "" }

/-- The entry built from `openV4`. -/
def entryV4 : githubMilestone :=
  { Repo := "acme/widgets", Name := "v4.0",
    URL := "https://github.com/acme/widgets/milestone/6", IsOpen := true,
    OpenIssues := 19, ClosedIssues := 1, CompleteMsg := " 5%",
    DueDate := "No due date.", UpdatedAt := "March 6 2017" }

/-- A remote side that answers the "open" request with `openV2`, `openEmpty` and
`openV4`, and the "closed" request with no milestone. -/
def emptyClient : gogithub.Client Unit where
  ListMilestones := fun _ _ _ opts =>
    if opts.State = "open" then (.ok [openV2, openEmpty, openV4], ()) else (.ok [], ())

/-- What `getMilestones` returns for `emptyClient` and `config`. -/
def fetchedEmpty : Fetched Unit :=
  { ret := [entryEmpty, entryV2, entryV4], err := none, remote := (),
    calls := [{ Owner := "acme", Repo := "widgets",
                opts := { SortBy := "updated", State := "open",
                          ListOptions := { PerPage := 30 } },
                reply := .ok [openV2, openEmpty, openV4] },
              { Owner := "acme", Repo := "widgets",
                opts := { SortBy := "updated", State := "closed",
                          ListOptions := { PerPage := 30 } },
                reply := .ok [] }] }

/-- A closed milestone without issues, closed on February 1, 2017. -/
def closedEmpty : gogithub.Milestone :=
  { Title := some "v0.5", HTMLURL := some "https://github.com/acme/widgets/milestone/7",
    State := some "closed", OpenIssues := some 0, ClosedIssues := some 0,
    DueOn := none, UpdatedAt := some (day 2017 2 1), ClosedAt := some (day 2017 2 1) }

/-- The entry built from `closedEmpty`. -/
def entryClosedEmpty : githubMilestone :=
  { Repo := "acme/widgets", Name := "v0.5",
    URL := "https://github.com/acme/widgets/milestone/7", IsOpen := false,
    OpenIssues := 0, ClosedIssues := 0, CompleteMsg := "NaN%",
    DueDate := "No due date.", UpdatedAt := "February 1 2017" }

/-- A remote side that answers the "open" request with `openV2` and `openEmpty`, and
the "closed" request with `closedEmpty`. -/
def zeroClient : gogithub.Client Unit where
  ListMilestones := fun _ _ _ opts =>
    if opts.State = "open" then (.ok [openV2, openEmpty], ()) else (.ok [closedEmpty], ())

/-- What `getMilestones` returns for `zeroClient` and `configSince`. -/
def fetchedZero : Fetched Unit :=
  { ret := [entryClosedEmpty, entryEmpty, entryV2], err := none, remote := (),
    calls := [{ Owner := "acme", Repo := "widgets",
                opts := { SortBy := "updated", State := "open",
                          ListOptions := { PerPage := 30 } },
                reply := .ok [openV2, openEmpty] },
              { Owner := "acme", Repo := "widgets",
                opts := { SortBy := "updated", State := "closed",
                          ListOptions := { PerPage := 30 } },
                reply := .ok [closedEmpty] }] }

end Example

/-! ## Insertion sort: permutation, order and stability

The comparison is only asked to be asymmetric and negatively transitive, which is
what a strict weak ordering provides. -/

section Sorting

variable {α : Type} (less : α → α → Bool)

theorem sinkInto_perm (x : α) (l : List α) : List.Perm (sinkInto less x l) (x :: l) := by
  induction l with
  | nil => simp [sinkInto]
  | cons y ys ih =>
    unfold sinkInto
    split
    · exact (List.Perm.cons y ih).trans (List.Perm.swap x y ys)
    · exact List.Perm.refl _

theorem sinkInto_sorted
    (hasymm : ∀ a b, less a b = true → less b a = false)
    (hneg : ∀ a b c, less a b = false → less b c = false → less a c = false)
    (x : α) (l : List α) (hl : l.Pairwise (fun a b => less a b = false)) :
    (sinkInto less x l).Pairwise (fun a b => less a b = false) := by
  induction l with
  | nil => simp [sinkInto]
  | cons y ys ih =>
    rw [List.pairwise_cons] at hl
    unfold sinkInto
    split
    · rename_i hxy
      rw [List.pairwise_cons]
      refine ⟨?_, ih hl.2⟩
      intro z hz
      rcases (List.mem_cons.mp ((sinkInto_perm less x ys).mem_iff.mp hz)) with h | h
      · subst h; exact hasymm _ _ hxy
      · exact hl.1 z h
    · rename_i hxy
      have hxy1 : less x y = false := by simpa using hxy
      rw [List.pairwise_cons]
      refine ⟨?_, List.pairwise_cons.mpr hl⟩
      intro z hz
      rcases List.mem_cons.mp hz with h | h
      · subst h; exact hxy1
      · exact hneg _ _ _ hxy1 (hl.1 z h)

theorem sinkInto_filter (p : α → Bool)
    (hp : ∀ a b, p a = true → p b = true → less a b = false) (x : α) (l : List α) :
    (sinkInto less x l).filter p = (x :: l).filter p := by
  induction l with
  | nil => simp [sinkInto]
  | cons y ys ih =>
    unfold sinkInto
    split
    · rename_i hxy
      rw [List.filter_cons, ih]
      by_cases hx : p x = true
      · have hy : p y = false := by
          by_contra hy
          have hy1 : p y = true := by simpa using hy
          have := hp x y hx hy1
          rw [hxy] at this
          exact Bool.noConfusion this
        simp [List.filter_cons, hx, hy]
      · simp [List.filter_cons, hx]
    · rfl

theorem insertionLoop_perm (acc l : List α) :
    List.Perm (insertionLoop less acc l) (acc ++ l) := by
  induction l generalizing acc with
  | nil => simp [insertionLoop]
  | cons x rest ih =>
    unfold insertionLoop
    refine (ih _).trans ?_
    refine ((sinkInto_perm less x acc).append_right rest).trans ?_
    simpa using (@List.perm_middle α x acc rest).symm

theorem insertionLoop_sorted
    (hasymm : ∀ a b, less a b = true → less b a = false)
    (hneg : ∀ a b c, less a b = false → less b c = false → less a c = false)
    (acc l : List α) (hacc : acc.Pairwise (fun a b => less a b = false)) :
    (insertionLoop less acc l).Pairwise (fun a b => less a b = false) := by
  induction l generalizing acc with
  | nil => simpa [insertionLoop] using hacc
  | cons x rest ih =>
    unfold insertionLoop
    exact ih _ (sinkInto_sorted less hasymm hneg x acc hacc)

theorem insertionLoop_filter (p : α → Bool)
    (hp : ∀ a b, p a = true → p b = true → less a b = false) (acc l : List α) :
    (insertionLoop less acc l).filter p = (l.filter p).reverse ++ acc.filter p := by
  induction l generalizing acc with
  | nil => simp [insertionLoop]
  | cons x rest ih =>
    unfold insertionLoop
    rw [ih, sinkInto_filter less p hp]
    by_cases hx : p x = true <;> simp [List.filter_cons, hx]

theorem insertionSort_perm (l : List α) : List.Perm (insertionSort less l) l := by
  unfold insertionSort
  exact (List.reverse_perm _).trans (by simpa using insertionLoop_perm less [] l)

/-- The result is in order: no element is `less` than one that stands before it. -/
theorem insertionSort_sorted
    (hasymm : ∀ a b, less a b = true → less b a = false)
    (hneg : ∀ a b c, less a b = false → less b c = false → less a c = false)
    (l : List α) : (insertionSort less l).Pairwise (fun a b => less b a = false) := by
  unfold insertionSort
  rw [List.pairwise_reverse]
  exact insertionLoop_sorted less hasymm hneg [] l List.Pairwise.nil

/-- The result is stable: elements none of which is `less` than another keep their
order. -/
theorem insertionSort_filter (p : α → Bool)
    (hp : ∀ a b, p a = true → p b = true → less a b = false) (l : List α) :
    (insertionSort less l).filter p = l.filter p := by
  unfold insertionSort
  rw [List.filter_reverse, insertionLoop_filter less p hp]
  simp

/-- Two lists in order that agree on every family of mutually incomparable elements
are equal: the stably sorted arrangement of a list is unique. -/
theorem stableSort_unique
    (hasymm : ∀ a b, less a b = true → less b a = false)
    (hneg : ∀ a b c, less a b = false → less b c = false → less a c = false)
    (l₁ l₂ : List α)
    (h₁ : l₁.Pairwise (fun a b => less b a = false))
    (h₂ : l₂.Pairwise (fun a b => less b a = false))
    (hst : ∀ p : α → Bool, (∀ a b, p a = true → p b = true → less a b = false) →
      l₁.filter p = l₂.filter p) : l₁ = l₂ := by
  have hirr : ∀ a, less a a = false := by
    intro a
    by_contra h
    have h1 : less a a = true := by simpa using h
    have := hasymm a a h1
    rw [h1] at this
    exact Bool.noConfusion this
  obtain ⟨cls, hdef⟩ : ∃ cls : α → α → Bool, ∀ c x, cls c x = (!less c x && !less x c) :=
    ⟨_, fun _ _ => rfl⟩
  have hcls : ∀ c a b, cls c a = true → cls c b = true → less a b = false := by
    intro c x y hx hy
    rw [hdef] at hx hy
    simp only [Bool.and_eq_true, Bool.not_eq_true'] at hx hy
    exact hneg x c y hx.2 hy.1
  have hself : ∀ c, cls c c = true := by
    intro c; rw [hdef]; simp [hirr c]
  induction l₁ generalizing l₂ with
  | nil =>
    cases l₂ with
    | nil => rfl
    | cons b t₂ =>
      have := hst (cls b) (hcls b)
      rw [List.filter_cons_of_pos (hself b)] at this
      simp at this
  | cons a t₁ ih =>
    cases l₂ with
    | nil =>
      have := hst (cls a) (hcls a)
      rw [List.filter_cons_of_pos (hself a)] at this
      simp at this
    | cons b t₂ =>
      have ha := hst (cls a) (hcls a)
      have hb := hst (cls b) (hcls b)
      rw [List.filter_cons_of_pos (hself a)] at ha
      rw [List.filter_cons_of_pos (hself b)] at hb
      have hamem : a ∈ b :: t₂ := by
        have : a ∈ List.filter (cls a) (b :: t₂) := by
          rw [← ha]; exact List.mem_cons_self _ _
        exact (List.mem_filter.mp this).1
      have hbmem : b ∈ a :: t₁ := by
        have : b ∈ List.filter (cls b) (a :: t₁) := by
          rw [hb]; exact List.mem_cons_self _ _
        exact (List.mem_filter.mp this).1
      have hab : less a b = false := by
        rcases List.mem_cons.mp hamem with h | h
        · rw [h]; exact hirr b
        · exact (List.pairwise_cons.mp h₂).1 a h
      have hba : less b a = false := by
        rcases List.mem_cons.mp hbmem with h | h
        · rw [h]; exact hirr a
        · exact (List.pairwise_cons.mp h₁).1 b h
      have heq : a = b := by
        have hin : cls a b = true := by rw [hdef]; simp [hab, hba]
        rw [List.filter_cons_of_pos hin] at ha
        exact (List.cons.inj ha).1
      subst heq
      congr 1
      refine ih t₂ (List.pairwise_cons.mp h₁).2 (List.pairwise_cons.mp h₂).2 ?_
      intro p hp
      have := hst p hp
      by_cases hpa : p a = true
      · rw [List.filter_cons_of_pos hpa, List.filter_cons_of_pos hpa] at this
        exact (List.cons.inj this).2
      · rw [List.filter_cons_of_neg hpa, List.filter_cons_of_neg hpa] at this
        exact this

end Sorting

/-! ## The ordering `Less` -/

theorem Less_asymm (lib : Stdlib) (a b : githubMilestone) (h : Less lib a b = true) :
    Less lib b a = false := by
  unfold Less at *
  cases ha : a.IsOpen <;> cases hb : b.IsOpen <;>
    simp_all [Time.Before] <;> omega

theorem Less_negtrans (lib : Stdlib) (a b c : githubMilestone)
    (hab : Less lib a b = false) (hbc : Less lib b c = false) : Less lib a c = false := by
  unfold Less at *
  cases ha : a.IsOpen <;> cases hb : b.IsOpen <;> cases hc : c.IsOpen <;>
    simp_all [Time.Before] <;> omega

/-- An open entry is never `Less` than a closed one, and a closed one always is
`Less` than an open one. -/
theorem Less_of_closed_open (lib : Stdlib) (a b : githubMilestone)
    (ha : a.IsOpen = false) (hb : b.IsOpen = true) : Less lib a b = true := by
  simp [Less, ha, hb]

/-- Between entries of the same state `Less` compares the dates. -/
theorem Less_of_same_state (lib : Stdlib) (a b : githubMilestone)
    (h : a.IsOpen = b.IsOpen) :
    Less lib a b = (updatedDate lib a).Before (updatedDate lib b) := by
  unfold Less
  cases hb : b.IsOpen <;> simp [h, hb]

theorem Stable_perm (lib : Stdlib) (ret : List githubMilestone) :
    List.Perm (Stable lib ret) ret :=
  insertionSort_perm (Less lib) ret

theorem Stable_sorted (lib : Stdlib) (ret : List githubMilestone) :
    (Stable lib ret).Pairwise (fun a b => Less lib b a = false) :=
  insertionSort_sorted (Less lib) (Less_asymm lib) (Less_negtrans lib) ret

theorem Stable_filter (lib : Stdlib) (p : githubMilestone → Bool)
    (hp : ∀ a b, p a = true → p b = true → Less lib a b = false)
    (ret : List githubMilestone) : (Stable lib ret).filter p = ret.filter p :=
  insertionSort_filter (Less lib) p hp ret

/-- Any list in order that keeps the order of mutually incomparable entries of `ret`
is the list `Stable` computes. -/
theorem Stable_unique (lib : Stdlib) (ret out : List githubMilestone)
    (hsorted : out.Pairwise (fun a b => Less lib b a = false))
    (hstable : ∀ p : githubMilestone → Bool,
      (∀ a b, p a = true → p b = true → Less lib a b = false) →
      out.filter p = ret.filter p) : out = Stable lib ret := by
  refine stableSort_unique (Less lib) (Less_asymm lib) (Less_negtrans lib) out _
    hsorted (Stable_sorted lib ret) ?_
  intro p hp
  rw [hstable p hp, Stable_filter lib p hp]

/-! ## The loops of `getMilestones` -/

theorem visitMilestone_eq (lib : Stdlib) (config : githubConfig) (rName state : String)
    (ret : List githubMilestone) (v : gogithub.Milestone) :
    visitMilestone lib config rName state ret v =
      (visitMilestone lib config rName state [] v).map (ret ++ ·) := by
  unfold visitMilestone
  cases includeOf config state v with
  | none => rfl
  | some b =>
    cases b with
    | false => simp
    | true =>
      cases entryOf lib rName v with
      | none => rfl
      | some m => simp

theorem rangeGuff_eq (lib : Stdlib) (config : githubConfig) (rName state : String)
    (guff : List gogithub.Milestone) (ret : List githubMilestone) :
    rangeGuff lib config rName state guff ret =
      (rangeGuff lib config rName state guff []).map (ret ++ ·) := by
  induction guff generalizing ret with
  | nil => simp [rangeGuff]
  | cons v guff ih =>
    unfold rangeGuff
    rw [visitMilestone_eq lib config rName state ret v]
    cases hv : visitMilestone lib config rName state [] v with
    | none => rfl
    | some d =>
      simp only [Option.map_some']
      rw [ih (ret ++ d), ih d]
      cases rangeGuff lib config rName state guff [] with
      | none => rfl
      | some part => simp [List.append_assoc]

/-- What the loop over a reply appends: every entry of the reply has a defined value
of `include`, and the appended entries are those built, in order, from the entries
with `include == true`. -/
theorem rangeGuff_spec (lib : Stdlib) (config : githubConfig) (rName state : String)
    (guff : List gogithub.Milestone) (part : List githubMilestone)
    (h : rangeGuff lib config rName state guff [] = some part) :
    (∀ v ∈ guff, ∃ b, includeOf config state v = some b) ∧
    (guff.filter (fun v => includeOf config state v == some true)).map (entryOf lib rName)
      = part.map some := by
  induction guff generalizing part with
  | nil =>
    simp [rangeGuff] at h
    subst h
    simp
  | cons v guff ih =>
    unfold rangeGuff at h
    cases hv : visitMilestone lib config rName state [] v with
    | none => rw [hv] at h; exact Option.noConfusion h
    | some d =>
      rw [hv] at h
      simp only at h
      rw [rangeGuff_eq] at h
      cases hrest : rangeGuff lib config rName state guff [] with
      | none => rw [hrest] at h; exact Option.noConfusion h
      | some rest =>
        rw [hrest] at h
        simp only [Option.map_some', Option.some.injEq] at h
        obtain ⟨ih1, ih2⟩ := ih rest hrest
        unfold visitMilestone at hv
        cases hinc : includeOf config state v with
        | none => rw [hinc] at hv; exact Option.noConfusion hv
        | some b =>
          rw [hinc] at hv
          cases b with
          | false =>
            simp only [Option.some.injEq] at hv
            subst hv
            refine ⟨?_, ?_⟩
            · intro w hw
              rcases List.mem_cons.mp hw with hw | hw
              · subst hw; exact ⟨false, hinc⟩
              · exact ih1 w hw
            · subst h
              simp [List.filter_cons, hinc, ih2]
          | true =>
            simp only at hv
            cases hent : entryOf lib rName v with
            | none => rw [hent] at hv; exact Option.noConfusion hv
            | some m =>
              rw [hent] at hv
              simp only [List.nil_append, Option.some.injEq] at hv
              subst hv
              refine ⟨?_, ?_⟩
              · intro w hw
                rcases List.mem_cons.mp hw with hw | hw
                · subst hw; exact ⟨true, hinc⟩
                · exact ih1 w hw
              · subst h
                simp [List.filter_cons, hinc, ih2, hent]

/-- What the loop over the two states does to the variables: it logs the calls it
makes, appends the entries of each of them, and leaves `hadRepo` alone.  When it
ends without `return`, it has issued one request per state and all were answered. -/
theorem rangeStates_spec {σ : Type} (lib : Stdlib) (client : gogithub.Client σ)
    (config : githubConfig) (orb : githubBranch) (states : List String)
    (vars vars' : Vars σ) (e : Option String)
    (h : rangeStates lib client config orb (rNameOf orb) states vars = some (vars', e)) :
    vars'.hadRepo = vars.hadRepo ∧
    ∃ (newCalls : List Call) (parts : List (List githubMilestone)),
      vars'.calls = vars.calls ++ newCalls ∧
      newCalls.map (entriesOfCall lib config) = parts.map some ∧
      vars'.ret = vars.ret ++ parts.flatten ∧
      (e = none → newCalls.map Call.request = states.map (requestOf config orb) ∧
        ∀ c ∈ newCalls, ∃ guff, c.reply = .ok guff) := by
  induction states generalizing vars with
  | nil =>
    simp only [rangeStates, Option.some.injEq, Prod.mk.injEq] at h
    obtain ⟨h1, h2⟩ := h
    subst h1
    exact ⟨rfl, [], [], by simp, by simp, by simp, by intro _; simp⟩
  | cons state states ih =>
    simp only [rangeStates] at h
    cases hans : (client.ListMilestones vars.remote orb.Owner orb.Repo
        { SortBy := "updated", State := state,
          ListOptions := { PerPage := config.BranchLines } }).1 with
    | error err =>
      rw [hans] at h
      simp only [Option.some.injEq, Prod.mk.injEq] at h
      obtain ⟨h1, h2⟩ := h
      subst h1
      refine ⟨rfl, [_], [[]], rfl, ?_, by simp, ?_⟩
      · simp [entriesOfCall]
      · intro he; rw [he] at h2; exact Option.noConfusion h2
    | ok guff =>
      rw [hans] at h
      simp only at h
      rw [rangeGuff_eq] at h
      cases hpart : rangeGuff lib config (rNameOf orb) state guff [] with
      | none => rw [hpart] at h; exact Option.noConfusion h
      | some part =>
        rw [hpart] at h
        simp only [Option.map_some'] at h
        obtain ⟨ih1, newCalls, parts, ih2, ih3, ih4, ih5⟩ := ih _ h
        refine ⟨ih1, Call.mk orb.Owner orb.Repo ⟨"updated", state, ⟨config.BranchLines⟩⟩
          (.ok guff) :: newCalls, part :: parts, ?_, ?_, ?_, ?_⟩
        · rw [ih2]; simp
        · simp only [List.map_cons, ih3]
          congr 1
        · rw [ih4]; simp [List.append_assoc]
        · intro he
          obtain ⟨h6, h7⟩ := ih5 he
          refine ⟨?_, ?_⟩
          · simp only [List.map_cons, h6]
            rfl
          · intro c hc
            rcases List.mem_cons.mp hc with hc | hc
            · subst hc; exact ⟨guff, rfl⟩
            · exact h7 c hc

/-- What the loop over `config.Lists` does to the variables: it logs the calls it
makes and appends the entries of each of them.  When it ends without `return`, the
requests it issued are an "open" and a "closed" one for each entry of `resolveFrom`,
all were answered, and `hadRepo` additionally holds the identifiers of the included
entries. -/
theorem rangeLists_spec {σ : Type} (lib : Stdlib) (client : gogithub.Client σ)
    (config : githubConfig) (lists : List githubBranch)
    (vars vars' : Vars σ) (e : Option String)
    (h : rangeLists lib client config lists vars = some (vars', e)) :
    ∃ (newCalls : List Call) (parts : List (List githubMilestone)),
      vars'.calls = vars.calls ++ newCalls ∧
      newCalls.map (entriesOfCall lib config) = parts.map some ∧
      vars'.ret = vars.ret ++ parts.flatten ∧
      (e = none →
        newCalls.map Call.request = (resolveFrom vars.hadRepo lists).flatMap
          (fun orb => [requestOf config orb "open", requestOf config orb "closed"]) ∧
        (∀ c ∈ newCalls, ∃ guff, c.reply = .ok guff) ∧
        (∀ k, vars'.hadRepo k = true ↔
          (vars.hadRepo k = true ∨ ∃ orb ∈ lists, orb.Included = true ∧ rNameOf orb = k))) := by
  induction lists generalizing vars with
  | nil =>
    simp only [rangeLists, Option.some.injEq, Prod.mk.injEq] at h
    obtain ⟨h1, h2⟩ := h
    subst h1
    exact ⟨[], [], by simp, by simp, by simp, by intro _; simp [resolveFrom]⟩
  | cons orb lists ih =>
    simp only [rangeLists] at h
    by_cases hinc : orb.Included = true
    · simp only [hinc, if_true] at h
      by_cases hhad : vars.hadRepo (rNameOf orb) = true
      · simp only [hhad, Bool.not_true, Bool.false_eq_true, if_false] at h
        obtain ⟨newCalls, parts, h1, h2, h3, h4⟩ := ih _ h
        refine ⟨newCalls, parts, h1, h2, h3, ?_⟩
        intro he
        obtain ⟨h5, h6, h7⟩ := h4 he
        refine ⟨?_, h6, ?_⟩
        · rw [h5]; simp [resolveFrom, hinc, hhad]
        · intro k
          rw [h7 k]
          simp only [List.mem_cons, exists_eq_or_imp, hinc, true_and]
          constructor
          · rintro (hk | hk)
            · by_cases hkk : k = rNameOf orb
              · exact Or.inr (Or.inl hkk.symm)
              · simp only [hkk, if_false] at hk; exact Or.inl hk
            · exact Or.inr (Or.inr hk)
          · rintro (hk | hk | hk)
            · left; by_cases hkk : k = rNameOf orb <;> simp [hkk, hk]
            · left; simp [hk]
            · exact Or.inr hk
      · have hhad1 : vars.hadRepo (rNameOf orb) = false := by simpa using hhad
        simp only [hhad1, Bool.not_false, if_true] at h
        cases hvis : rangeStates lib client config orb (rNameOf orb) ["open", "closed"] vars with
        | none => rw [hvis] at h; exact Option.noConfusion h
        | some res =>
          obtain ⟨vars1, e1⟩ := res
          rw [hvis] at h
          obtain ⟨s1, calls1, parts1, s2, s3, s4, s5⟩ :=
            rangeStates_spec lib client config orb _ vars vars1 e1 hvis
          cases e1 with
          | some err =>
            simp only [Option.some.injEq, Prod.mk.injEq] at h
            obtain ⟨h1, h2⟩ := h
            subst h1
            refine ⟨calls1, parts1, s2, s3, s4, ?_⟩
            intro he; rw [he] at h2; exact Option.noConfusion h2
          | none =>
            simp only at h
            obtain ⟨newCalls, parts, h1, h2, h3, h4⟩ := ih _ h
            obtain ⟨s6, s7⟩ := s5 rfl
            refine ⟨calls1 ++ newCalls, parts1 ++ parts, ?_, ?_, ?_, ?_⟩
            · rw [h1]; simp [s2, List.append_assoc]
            · simp [s3, h2]
            · rw [h3]; simp [s4, List.append_assoc]
            · intro he
              obtain ⟨h5, h6, h7⟩ := h4 he
              refine ⟨?_, ?_, ?_⟩
              · rw [List.map_append, h5, s6]
                simp [resolveFrom, hinc, hhad1, s1]
              · intro c hc
                rcases List.mem_append.mp hc with hc | hc
                · exact s7 c hc
                · exact h6 c hc
              · intro k
                rw [h7 k]
                simp only [List.mem_cons, exists_eq_or_imp, hinc, true_and, s1]
                constructor
                · rintro (hk | hk)
                  · by_cases hkk : k = rNameOf orb
                    · exact Or.inr (Or.inl hkk.symm)
                    · simp only [hkk, if_false] at hk; exact Or.inl hk
                  · exact Or.inr (Or.inr hk)
                · rintro (hk | hk | hk)
                  · left; by_cases hkk : k = rNameOf orb <;> simp [hkk, hk]
                  · left; simp [hk]
                  · exact Or.inr hk
    · have hinc1 : orb.Included = false := by simpa using hinc
      simp only [hinc1, Bool.false_eq_true, if_false] at h
      obtain ⟨newCalls, parts, h1, h2, h3, h4⟩ := ih _ h
      refine ⟨newCalls, parts, h1, h2, h3, ?_⟩
      intro he
      obtain ⟨h5, h6, h7⟩ := h4 he
      refine ⟨?_, h6, ?_⟩
      · rw [h5]; simp [resolveFrom, hinc1]
      · intro k
        rw [h7 k]
        simp [hinc1]

/-! ## Runs that do return -/

theorem visitMilestone_returns (lib : Stdlib) (config : githubConfig) (rName state : String)
    (ret : List githubMilestone) (v : gogithub.Milestone)
    (hv : noPanicOn config state v = true) :
    ∃ ret1, visitMilestone lib config rName state ret v = some ret1 := by
  simp only [noPanicOn, hasEntryFields, Bool.and_eq_true, Bool.or_eq_true,
    Bool.not_eq_true', Bool.and_eq_false_imp, decide_eq_true_eq] at hv
  obtain ⟨⟨⟨⟨⟨h1, h2⟩, h3⟩, h4⟩, h5⟩, h6⟩ := hv
  obtain ⟨title, ht⟩ := Option.isSome_iff_exists.mp h1
  obtain ⟨url, hu⟩ := Option.isSome_iff_exists.mp h2
  obtain ⟨st, hs⟩ := Option.isSome_iff_exists.mp h3
  obtain ⟨o, ho⟩ := Option.isSome_iff_exists.mp h4
  obtain ⟨c, hc⟩ := Option.isSome_iff_exists.mp h5
  have hentry : ∃ m, entryOf lib rName v = some m := by
    simp [entryOf, ht, hu, hs, ho, hc]
  obtain ⟨m, hm⟩ := hentry
  have hinc : ∃ b, includeOf config state v = some b := by
    unfold includeOf
    by_cases hst : state = "closed"
    · simp only [hst, if_true]
      cases hsince : config.SincePtr with
      | none => exact ⟨true, rfl⟩
      | some since =>
        rcases h6 with h6 | h6
        · have := h6 hst
          rw [hsince] at this
          exact Bool.noConfusion this
        · obtain ⟨closedAt, hcl⟩ := Option.isSome_iff_exists.mp h6
          simp only [hcl]
          by_cases ha : since.After closedAt = true
          · exact ⟨false, by simp [ha]⟩
          · exact ⟨true, by simp [ha]⟩
    · exact ⟨true, by simp [hst]⟩
  obtain ⟨b, hb⟩ := hinc
  unfold visitMilestone
  rw [hb]
  cases b with
  | false => exact ⟨ret, rfl⟩
  | true => rw [hm]; exact ⟨ret ++ [m], rfl⟩

theorem rangeGuff_returns (lib : Stdlib) (config : githubConfig) (rName state : String)
    (guff : List gogithub.Milestone) (ret : List githubMilestone)
    (hguff : ∀ v ∈ guff, noPanicOn config state v = true) :
    ∃ ret1, rangeGuff lib config rName state guff ret = some ret1 := by
  induction guff generalizing ret with
  | nil => exact ⟨ret, rfl⟩
  | cons v guff ih =>
    obtain ⟨ret1, h1⟩ := visitMilestone_returns lib config rName state ret v
      (hguff v (List.mem_cons_self _ _))
    unfold rangeGuff
    rw [h1]
    exact ih ret1 (fun w hw => hguff w (List.mem_cons_of_mem _ hw))

theorem rangeStates_returns {σ : Type} (lib : Stdlib) (client : gogithub.Client σ)
    (config : githubConfig) (orb : githubBranch) (rName : String) (states : List String)
    (vars : Vars σ)
    (hclient : ∀ s owner repo opts, ∃ guff,
      (client.ListMilestones s owner repo opts).1 = .ok guff ∧
      ∀ v ∈ guff, noPanicOn config opts.State v = true) :
    ∃ vars', rangeStates lib client config orb rName states vars = some (vars', none) := by
  induction states generalizing vars with
  | nil => exact ⟨vars, rfl⟩
  | cons state states ih =>
    obtain ⟨guff, hans, hguff⟩ := hclient vars.remote orb.Owner orb.Repo
      ⟨"updated", state, ⟨config.BranchLines⟩⟩
    obtain ⟨ret1, hret1⟩ := rangeGuff_returns lib config rName state guff vars.ret hguff
    simp only [rangeStates, hans, hret1]
    exact ih _

theorem rangeLists_returns {σ : Type} (lib : Stdlib) (client : gogithub.Client σ)
    (config : githubConfig) (lists : List githubBranch) (vars : Vars σ)
    (hclient : ∀ s owner repo opts, ∃ guff,
      (client.ListMilestones s owner repo opts).1 = .ok guff ∧
      ∀ v ∈ guff, noPanicOn config opts.State v = true) :
    ∃ vars', rangeLists lib client config lists vars = some (vars', none) := by
  induction lists generalizing vars with
  | nil => exact ⟨vars, rfl⟩
  | cons orb lists ih =>
    simp only [rangeLists]
    by_cases hinc : orb.Included = true
    · simp only [hinc, if_true]
      by_cases hhad : vars.hadRepo (rNameOf orb) = true
      · simp only [hhad, Bool.not_true, Bool.false_eq_true, if_false]
        exact ih _
      · have hhad1 : vars.hadRepo (rNameOf orb) = false := by simpa using hhad
        obtain ⟨vars1, h1⟩ := rangeStates_returns lib client config orb (rNameOf orb)
          ["open", "closed"] vars hclient
        simp only [hhad1, Bool.not_false, if_true, h1]
        exact ih _
    · have hinc1 : orb.Included = false := by simpa using hinc
      simp only [hinc1, Bool.false_eq_true, if_false]
      exact ih _

/-- When the remote side answers every request, and no milestone of a reply lacks a
field the loop body dereferences, `getMilestones` returns, and returns no error. -/
theorem getMilestones_returns {σ : Type} (lib : Stdlib) (client : gogithub.Client σ)
    (remote : σ) (config : githubConfig)
    (hclient : ∀ s owner repo opts, ∃ guff,
      (client.ListMilestones s owner repo opts).1 = .ok guff ∧
      ∀ v ∈ guff, noPanicOn config opts.State v = true) :
    ∃ r, getMilestones lib client remote config = some r ∧ r.err = none := by
  obtain ⟨vars, hvars⟩ := rangeLists_returns lib client config config.Lists
    (initVars remote) hclient
  unfold getMilestones
  rw [hvars]
  exact ⟨_, rfl, rfl⟩

theorem rangeStates_total {σ : Type} (lib : Stdlib) (client : gogithub.Client σ)
    (config : githubConfig) (orb : githubBranch) (rName : String) (states : List String)
    (vars : Vars σ)
    (hclient : ∀ s owner repo opts guff,
      (client.ListMilestones s owner repo opts).1 = .ok guff →
      ∀ v ∈ guff, noPanicOn config opts.State v = true) :
    ∃ res, rangeStates lib client config orb rName states vars = some res := by
  induction states generalizing vars with
  | nil => exact ⟨_, rfl⟩
  | cons state states ih =>
    simp only [rangeStates]
    cases hans : (client.ListMilestones vars.remote orb.Owner orb.Repo
        { SortBy := "updated", State := state,
          ListOptions := { PerPage := config.BranchLines } }).1 with
    | error err => exact ⟨_, rfl⟩
    | ok guff =>
      obtain ⟨ret1, hret1⟩ := rangeGuff_returns lib config rName state guff vars.ret
        (hclient _ _ _ _ guff hans)
      simp only [hret1]
      exact ih _

theorem rangeLists_total {σ : Type} (lib : Stdlib) (client : gogithub.Client σ)
    (config : githubConfig) (lists : List githubBranch) (vars : Vars σ)
    (hclient : ∀ s owner repo opts guff,
      (client.ListMilestones s owner repo opts).1 = .ok guff →
      ∀ v ∈ guff, noPanicOn config opts.State v = true) :
    ∃ res, rangeLists lib client config lists vars = some res := by
  induction lists generalizing vars with
  | nil => exact ⟨_, rfl⟩
  | cons orb lists ih =>
    simp only [rangeLists]
    by_cases hinc : orb.Included = true
    · simp only [hinc, if_true]
      by_cases hhad : vars.hadRepo (rNameOf orb) = true
      · simp only [hhad, Bool.not_true, Bool.false_eq_true, if_false]
        exact ih _
      · have hhad1 : vars.hadRepo (rNameOf orb) = false := by simpa using hhad
        obtain ⟨⟨vars1, e1⟩, h1⟩ := rangeStates_total lib client config orb (rNameOf orb)
          ["open", "closed"] vars hclient
        simp only [hhad1, Bool.not_false, if_true, h1]
        cases e1 with
        | some err => exact ⟨_, rfl⟩
        | none => exact ih _
    · have hinc1 : orb.Included = false := by simpa using hinc
      simp only [hinc1, Bool.false_eq_true, if_false]
      exact ih _

/-- When no milestone of an answered request lacks a field the loop body dereferences,
`getMilestones` returns, whether requests fail or not. -/
theorem getMilestones_total {σ : Type} (lib : Stdlib) (client : gogithub.Client σ)
    (remote : σ) (config : githubConfig)
    (hclient : ∀ s owner repo opts guff,
      (client.ListMilestones s owner repo opts).1 = .ok guff →
      ∀ v ∈ guff, noPanicOn config opts.State v = true) :
    ∃ r, getMilestones lib client remote config = some r := by
  obtain ⟨⟨vars, e⟩, hvars⟩ := rangeLists_total lib client config config.Lists
    (initVars remote) hclient
  unfold getMilestones
  rw [hvars]
  cases e with
  | some err => exact ⟨_, rfl⟩
  | none => exact ⟨_, rfl⟩

/-! ## The repository set -/

theorem resolveFrom_eq (hadRepo : String → Bool) (lists : List githubBranch) :
    resolveFrom hadRepo lists =
      (resolvedRepositories lists).filter (fun o => !hadRepo (rNameOf o)) := by
  induction lists generalizing hadRepo with
  | nil => rfl
  | cons orb lists ih =>
    unfold resolveFrom resolvedRepositories
    by_cases hinc : orb.Included = true
    · simp only [hinc, if_true]
      rw [ih, List.filter_cons, List.filter_filter]
      have hfun : (fun o => !(if rNameOf o = rNameOf orb then true else hadRepo (rNameOf o))) =
          (fun a => (!hadRepo (rNameOf a)) && decide (rNameOf a ≠ rNameOf orb)) := by
        funext o
        by_cases ho : rNameOf o = rNameOf orb <;> simp [ho]
      rw [hfun]
      cases hh : hadRepo (rNameOf orb) <;> simp
    · have hinc1 : orb.Included = false := by simpa using hinc
      simp only [hinc1, Bool.false_eq_true, if_false]
      exact ih hadRepo

theorem resolveFrom_init (lists : List githubBranch) :
    resolveFrom (fun _ => false) lists = resolvedRepositories lists := by
  rw [resolveFrom_eq]
  simp

theorem resolvedRepositories_sublist (lists : List githubBranch) :
    List.Sublist (resolvedRepositories lists) lists := by
  induction lists with
  | nil => exact List.Sublist.slnil
  | cons orb lists ih =>
    unfold resolvedRepositories
    split
    · exact List.Sublist.cons₂ _ ((List.filter_sublist _).trans ih)
    · exact List.Sublist.cons _ ih

theorem resolvedRepositories_nodup (lists : List githubBranch) :
    ((resolvedRepositories lists).map rNameOf).Nodup := by
  induction lists with
  | nil => simp [resolvedRepositories]
  | cons orb lists ih =>
    unfold resolvedRepositories
    split
    · rw [List.map_cons, List.nodup_cons]
      refine ⟨?_, ?_⟩
      · intro hmem
        obtain ⟨o, ho, heq⟩ := List.mem_map.mp hmem
        have := (List.mem_filter.mp ho).2
        simp [heq] at this
      · exact (ih.sublist ((List.filter_sublist _).map rNameOf))
    · exact ih

theorem mem_resolvedRepositories (lists : List githubBranch) (k : String) :
    k ∈ (resolvedRepositories lists).map rNameOf ↔
      ∃ orb ∈ lists, orb.Included = true ∧ rNameOf orb = k := by
  induction lists with
  | nil => simp [resolvedRepositories]
  | cons orb lists ih =>
    unfold resolvedRepositories
    by_cases hinc : orb.Included = true
    · simp only [hinc, if_true, List.map_cons, List.mem_cons, exists_eq_or_imp, true_and]
      constructor
      · rintro (hk | hk)
        · exact Or.inl hk.symm
        · obtain ⟨o, ho, heq⟩ := List.mem_map.mp hk
          exact Or.inr (ih.mp (List.mem_map.mpr ⟨o, (List.mem_filter.mp ho).1, heq⟩))
      · rintro (hk | hk)
        · exact Or.inl hk.symm
        · by_cases hkk : k = rNameOf orb
          · exact Or.inl hkk
          · right
            obtain ⟨o, ho, heq⟩ := List.mem_map.mp (ih.mpr hk)
            refine List.mem_map.mpr ⟨o, List.mem_filter.mpr ⟨ho, ?_⟩, heq⟩
            simp only [decide_eq_true_eq]
            rw [heq]; exact hkk
    · have hinc1 : orb.Included = false := by simpa using hinc
      simp only [hinc1, Bool.false_eq_true, if_false, List.mem_cons, exists_eq_or_imp,
        false_and, false_or]
      exact ih

/-! ## Successful runs of `getMilestones` -/

/-- A run that returns without error: its result is the stable sort of the entries
its calls contributed, the calls are one "open" and one "closed" request per resolved
repository, and each of them was answered. -/
theorem getMilestones_ok {σ : Type} (lib : Stdlib) (client : gogithub.Client σ)
    (remote : σ) (config : githubConfig) (r : Fetched σ)
    (h : getMilestones lib client remote config = some r) (hok : r.err = none) :
    ∃ parts : List (List githubMilestone),
      r.calls.map (entriesOfCall lib config) = parts.map some ∧
      r.ret = Stable lib parts.flatten ∧
      r.calls.map Call.request = (resolvedRepositories config.Lists).flatMap
        (fun orb => [requestOf config orb "open", requestOf config orb "closed"]) ∧
      (∀ c ∈ r.calls, ∃ guff, c.reply = .ok guff) := by
  unfold getMilestones at h
  cases hrun : rangeLists lib client config config.Lists (initVars remote) with
  | none => rw [hrun] at h; exact Option.noConfusion h
  | some res =>
    obtain ⟨vars, e⟩ := res
    rw [hrun] at h
    obtain ⟨newCalls, parts, h1, h2, h3, h4⟩ :=
      rangeLists_spec lib client config config.Lists _ vars e hrun
    cases e with
    | some err =>
      simp only [Option.some.injEq] at h
      subst h
      exact Option.noConfusion hok
    | none =>
      simp only [Option.some.injEq] at h
      subst h
      obtain ⟨h5, h6, _⟩ := h4 rfl
      simp only [initVars, List.nil_append] at h1 h3 h5
      refine ⟨parts, ?_, ?_, ?_, ?_⟩
      · simp only [h1]; exact h2
      · simp only [h3]
      · simp only [h1, h5, resolveFrom_init]
      · simp only [h1]; exact h6

theorem forall₂_of_map_eq {α β γ : Type} (P : α → Prop) (f : α → γ) (g : β → γ)
    (l : List α) (l' : List β) (hP : ∀ a ∈ l, P a) (h : l.map f = l'.map g) :
    List.Forall₂ (fun a b => P a ∧ f a = g b) l l' := by
  induction l generalizing l' with
  | nil =>
    cases l' with
    | nil => exact List.Forall₂.nil
    | cons b l' => simp at h
  | cons a l ih =>
    cases l' with
    | nil => simp at h
    | cons b l' =>
      simp only [List.map_cons, List.cons.injEq] at h
      exact List.Forall₂.cons ⟨hP a (List.mem_cons_self _ _), h.1⟩
        (ih l' (fun x hx => hP x (List.mem_cons_of_mem _ hx)) h.2)

theorem forall₂_exists_of_mem {α β : Type} (R : α → β → Prop) (l : List α) (l' : List β)
    (h : List.Forall₂ R l l') (a : α) (ha : a ∈ l) : ∃ b ∈ l', R a b := by
  induction h with
  | nil => simp at ha
  | cons hab _ ih =>
    rcases List.mem_cons.mp ha with hx | hx
    · subst hx; exact ⟨_, List.mem_cons_self _ _, hab⟩
    · obtain ⟨b, hb, hr⟩ := ih hx
      exact ⟨b, List.mem_cons_of_mem _ hb, hr⟩

/-- The result of a successful run is the stable sort of the entries of its calls,
one call after the other; the entries of a call are those the loop over its reply
appends; the calls are those for the resolved repositories. -/
theorem getMilestones_parts {σ : Type} (lib : Stdlib) (client : gogithub.Client σ)
    (remote : σ) (config : githubConfig) (r : Fetched σ)
    (h : getMilestones lib client remote config = some r) (hok : r.err = none) :
    ∃ parts : List (List githubMilestone),
      r.ret = Stable lib parts.flatten ∧
      List.Forall₂ (fun (c : Call) (part : List githubMilestone) =>
        ∃ guff, c.reply = .ok guff ∧
          rangeGuff lib config (c.Owner ++ "/" ++ c.Repo) c.opts.State guff [] = some part)
        r.calls parts ∧
      r.calls.map Call.request = (resolvedRepositories config.Lists).flatMap
        (fun orb => [requestOf config orb "open", requestOf config orb "closed"]) := by
  obtain ⟨parts, hparts, hret, hreq, hrep⟩ :=
    getMilestones_ok lib client remote config r h hok
  refine ⟨parts, hret, ?_, hreq⟩
  refine (forall₂_of_map_eq _ _ _ _ _ hrep hparts).imp ?_
  rintro c part ⟨⟨guff, hguff⟩, hent⟩
  refine ⟨guff, hguff, ?_⟩
  simpa [entriesOfCall, hguff] using hent

/-! ## Order of the result -/

/-- C1, as the code has it.  In the list a successful `getMilestones` returns, every
entry with `IsOpen == false` precedes every entry with `IsOpen == true`: no open entry
stands before a closed one, and an adjacent pair of different state is a closed entry
followed by an open one. -/
theorem closed_precede_open {σ : Type} (lib : Stdlib) (client : gogithub.Client σ)
    (remote : σ) (config : githubConfig) (r : Fetched σ)
    (h : getMilestones lib client remote config = some r) (hok : r.err = none) :
    r.ret.Pairwise (fun a b => ¬ (a.IsOpen = true ∧ b.IsOpen = false)) ∧
    ∀ (pre post : List githubMilestone) (a b : githubMilestone),
      r.ret = pre ++ a :: b :: post → a.IsOpen ≠ b.IsOpen →
        a.IsOpen = false ∧ b.IsOpen = true := by
  obtain ⟨parts, _, hret, _, _⟩ := getMilestones_ok lib client remote config r h hok
  have hpw : r.ret.Pairwise (fun a b => ¬ (a.IsOpen = true ∧ b.IsOpen = false)) := by
    rw [hret]
    refine (Stable_sorted lib parts.flatten).imp ?_
    intro a b hba hab
    rw [Less_of_closed_open lib b a hab.2 hab.1] at hba
    exact Bool.noConfusion hba
  refine ⟨hpw, ?_⟩
  intro pre post a b hsplit hne
  rw [hsplit] at hpw
  have hab := (List.pairwise_cons.mp (List.pairwise_append.mp hpw).2.1).1 b
    (List.mem_cons_self _ _)
  cases ha : a.IsOpen <;> cases hb : b.IsOpen <;> simp_all

/-- C1 as stated fails: for the repository `acme/widgets` the result ends with the
closed entry `v1.1` followed by the open entry `v2.0`. -/
theorem open_precede_closed_counterexample :
    getMilestones goStdlib Example.acmeClient () Example.config = some Example.fetched ∧
    Example.fetched.err = none ∧
    Example.fetched.ret =
      [Example.entryV09, Example.entryV1] ++ Example.entryV11 :: Example.entryV2 :: [] ∧
    Example.entryV11.IsOpen ≠ Example.entryV2.IsOpen ∧
    ¬ (Example.entryV11.IsOpen = true ∧ Example.entryV2.IsOpen = false) :=
  ⟨rfl, rfl, rfl, by decide, by decide⟩

/-- The theorem `closed_precede_open` at the repository `acme/widgets`. -/
theorem closed_precede_open_witness :
    getMilestones goStdlib Example.acmeClient () Example.config = some Example.fetched ∧
    Example.fetched.err = none ∧
    (Example.fetched.ret.Pairwise (fun a b => ¬ (a.IsOpen = true ∧ b.IsOpen = false)) ∧
      ∀ (pre post : List githubMilestone) (a b : githubMilestone),
        Example.fetched.ret = pre ++ a :: b :: post → a.IsOpen ≠ b.IsOpen →
          a.IsOpen = false ∧ b.IsOpen = true) :=
  ⟨rfl, rfl, closed_precede_open goStdlib Example.acmeClient () Example.config
    Example.fetched rfl rfl⟩

/-- C9.  In the list a successful `getMilestones` returns, of two entries of the same
state the earlier one has the earlier or the same last-updated date, for an adjacent
pair in particular.  The date of an entry is `updatedDate`: its `UpdatedAt` parsed
with the layout `January 2 2006`, and the zero time the library returns when the text
does not parse. -/
theorem same_state_dates_ascending {σ : Type} (lib : Stdlib) (client : gogithub.Client σ)
    (remote : σ) (config : githubConfig) (r : Fetched σ)
    (h : getMilestones lib client remote config = some r) (hok : r.err = none) :
    r.ret.Pairwise (fun a b => a.IsOpen = b.IsOpen →
      (updatedDate lib a).ns ≤ (updatedDate lib b).ns) ∧
    ∀ (pre post : List githubMilestone) (a b : githubMilestone),
      r.ret = pre ++ a :: b :: post → a.IsOpen = b.IsOpen →
        (updatedDate lib a).ns ≤ (updatedDate lib b).ns ∧
        (updatedDate lib b).Before (updatedDate lib a) = false := by
  obtain ⟨parts, _, hret, _, _⟩ := getMilestones_ok lib client remote config r h hok
  have hpw : r.ret.Pairwise (fun a b => a.IsOpen = b.IsOpen →
      (updatedDate lib a).ns ≤ (updatedDate lib b).ns) := by
    rw [hret]
    refine (Stable_sorted lib parts.flatten).imp ?_
    intro a b hba hab
    rw [Less_of_same_state lib b a hab.symm] at hba
    simpa [Time.Before] using hba
  refine ⟨hpw, ?_⟩
  intro pre post a b hsplit hsame
  rw [hsplit] at hpw
  have hab := (List.pairwise_cons.mp (List.pairwise_append.mp hpw).2.1).1 b
    (List.mem_cons_self _ _) hsame
  exact ⟨hab, by simpa [Time.Before] using hab⟩

/-- The theorem `same_state_dates_ascending` at the repository `acme/widgets`. -/
theorem same_state_dates_ascending_witness :
    getMilestones goStdlib Example.acmeClient () Example.config = some Example.fetched ∧
    Example.fetched.err = none ∧
    (Example.fetched.ret.Pairwise (fun a b => a.IsOpen = b.IsOpen →
        (updatedDate goStdlib a).ns ≤ (updatedDate goStdlib b).ns) ∧
      ∀ (pre post : List githubMilestone) (a b : githubMilestone),
        Example.fetched.ret = pre ++ a :: b :: post → a.IsOpen = b.IsOpen →
          (updatedDate goStdlib a).ns ≤ (updatedDate goStdlib b).ns ∧
          (updatedDate goStdlib b).Before (updatedDate goStdlib a) = false) :=
  ⟨rfl, rfl, same_state_dates_ascending goStdlib Example.acmeClient () Example.config
    Example.fetched rfl rfl⟩

/-- C10.  The sort is stable.  The requests of a successful `getMilestones` go
through the resolved repositories in the order of `config.Lists`, the "open" request
before the "closed" one; each call contributes, in the order of its reply, the entries
built from the milestones the filter keeps; `parts.flatten` is the list of these
entries in the order fetched.  The result is a rearrangement of it in which the
entries of one state and one last-updated date stand in exactly the fetched order. -/
theorem sort_keeps_fetch_order {σ : Type} (lib : Stdlib) (client : gogithub.Client σ)
    (remote : σ) (config : githubConfig) (r : Fetched σ)
    (h : getMilestones lib client remote config = some r) (hok : r.err = none) :
    ∃ parts : List (List githubMilestone),
      r.calls.map Call.request = (resolvedRepositories config.Lists).flatMap
        (fun orb => [requestOf config orb "open", requestOf config orb "closed"]) ∧
      List.Forall₂ (fun (c : Call) (part : List githubMilestone) =>
        ∃ guff, c.reply = .ok guff ∧
          (guff.filter (fun v => includeOf config c.opts.State v == some true)).map
            (entryOf lib (c.Owner ++ "/" ++ c.Repo)) = part.map some)
        r.calls parts ∧
      List.Perm r.ret parts.flatten ∧
      ∀ (isOpen : Bool) (date : Time),
        r.ret.filter (fun m => decide (m.IsOpen = isOpen ∧ updatedDate lib m = date)) =
          parts.flatten.filter
            (fun m => decide (m.IsOpen = isOpen ∧ updatedDate lib m = date)) := by
  obtain ⟨parts, hret, hall, hreq⟩ := getMilestones_parts lib client remote config r h hok
  refine ⟨parts, hreq, ?_, ?_, ?_⟩
  · refine hall.imp ?_
    rintro c part ⟨guff, hguff, hrange⟩
    exact ⟨guff, hguff, (rangeGuff_spec lib config _ _ guff part hrange).2⟩
  · rw [hret]; exact Stable_perm lib _
  · intro isOpen date
    rw [hret]
    apply Stable_filter
    intro a b ha hb
    simp only [decide_eq_true_eq] at ha hb
    rw [Less_of_same_state lib a b (ha.1.trans hb.1.symm), ha.2, hb.2]
    simp [Time.Before]

/-- The theorem `sort_keeps_fetch_order` at the repository `acme/widgets`: the closed
milestones `v1.0` and `v1.1`, both last updated on January 10, 2017, were fetched in
this order and stand in the result in this order. -/
theorem sort_keeps_fetch_order_witness :
    getMilestones goStdlib Example.acmeClient () Example.config = some Example.fetched ∧
    Example.fetched.err = none ∧
    (∃ parts : List (List githubMilestone),
      Example.fetched.calls.map Call.request =
        (resolvedRepositories Example.config.Lists).flatMap
          (fun orb => [requestOf Example.config orb "open",
                       requestOf Example.config orb "closed"]) ∧
      List.Forall₂ (fun (c : Call) (part : List githubMilestone) =>
        ∃ guff, c.reply = .ok guff ∧
          (guff.filter (fun v => includeOf Example.config c.opts.State v == some true)).map
            (entryOf goStdlib (c.Owner ++ "/" ++ c.Repo)) = part.map some)
        Example.fetched.calls parts ∧
      List.Perm Example.fetched.ret parts.flatten ∧
      ∀ (isOpen : Bool) (date : Time),
        Example.fetched.ret.filter
            (fun m => decide (m.IsOpen = isOpen ∧ updatedDate goStdlib m = date)) =
          parts.flatten.filter
            (fun m => decide (m.IsOpen = isOpen ∧ updatedDate goStdlib m = date))) ∧
    Example.fetched.calls.map (entriesOfCall goStdlib Example.config) =
      [some [Example.entryV2], some [Example.entryV1, Example.entryV11, Example.entryV09]] ∧
    Example.fetched.ret.filter
        (fun m => decide (m.IsOpen = false ∧
          updatedDate goStdlib m = Example.day 2017 1 10)) =
      [Example.entryV1, Example.entryV11] :=
  ⟨rfl, rfl, sort_keeps_fetch_order goStdlib Example.acmeClient () Example.config
    Example.fetched rfl rfl, by decide, by decide⟩

/-! ## The counters of `refreshMilestones` -/

theorem countLoop_eq (l : List githubMilestone) (openMS closedMS : Int) :
    countLoop l (openMS, closedMS) =
      (openMS + (l.countP (fun m => m.IsOpen) : Nat),
       closedMS + (l.countP (fun m => !m.IsOpen) : Nat)) := by
  induction l generalizing openMS closedMS with
  | nil => simp [countLoop]
  | cons v rest ih =>
    unfold countLoop
    cases hv : v.IsOpen
    · simp only [Bool.false_eq_true, if_false]
      rw [ih]
      simp [List.countP_cons, hv]
      omega
    · simp only [if_true]
      rw [ih]
      simp [List.countP_cons, hv]
      omega

/-- C3.  After a `refreshMilestones` that returns no error, `gr.OpenMS` is the number
of entries of `gr.Milestones` with `IsOpen == true`, `gr.ClosedMS` the number with
`IsOpen == false`, and the two add up to `len(gr.Milestones)`. -/
theorem refreshMilestones_counts {σ : Type} (lib : Stdlib) (client : gogithub.Client σ)
    (remote : σ) (gr : githubRender) (config : githubConfig) (out : Refreshed σ)
    (h : refreshMilestones lib client remote gr config = some out) (hok : out.err = none) :
    out.gr.OpenMS = (out.gr.Milestones.countP (fun m => m.IsOpen) : Nat) ∧
    out.gr.ClosedMS = (out.gr.Milestones.countP (fun m => !m.IsOpen) : Nat) ∧
    out.gr.OpenMS + out.gr.ClosedMS = (out.gr.Milestones.length : Nat) := by
  unfold refreshMilestones at h
  cases hget : getMilestones lib client remote config with
  | none => rw [hget] at h; exact Option.noConfusion h
  | some fetched =>
    rw [hget] at h
    simp only at h
    cases herr : fetched.err with
    | some err =>
      rw [herr] at h
      simp only [Option.some.injEq] at h
      subst h
      exact Option.noConfusion hok
    | none =>
      rw [herr] at h
      simp only [Option.some.injEq] at h
      subst h
      simp only [countLoop_eq, zero_add]
      refine ⟨trivial, trivial, ?_⟩
      have := List.length_eq_countP_add_countP (fun m : githubMilestone => m.IsOpen)
        fetched.ret
      rw [this]
      push_cast
      simp

/-- The theorem `refreshMilestones_counts` at the repository `acme/widgets`, with
counters that held 7 before the refresh: one open and three closed entries. -/
theorem refreshMilestones_counts_witness :
    refreshMilestones goStdlib Example.acmeClient () ⟨[], 7, 7⟩ Example.config =
      some Example.refreshed ∧
    Example.refreshed.err = none ∧
    (Example.refreshed.gr.OpenMS =
        (Example.refreshed.gr.Milestones.countP (fun m => m.IsOpen) : Nat) ∧
      Example.refreshed.gr.ClosedMS =
        (Example.refreshed.gr.Milestones.countP (fun m => !m.IsOpen) : Nat) ∧
      Example.refreshed.gr.OpenMS + Example.refreshed.gr.ClosedMS =
        (Example.refreshed.gr.Milestones.length : Nat)) ∧
    Example.refreshed.gr.OpenMS = 1 ∧ Example.refreshed.gr.ClosedMS = 3 :=
  ⟨rfl, rfl, refreshMilestones_counts goStdlib Example.acmeClient () ⟨[], 7, 7⟩
    Example.config Example.refreshed rfl rfl, rfl, rfl⟩

/-! ## A failed request -/

/-- C2 fails on the code.  The caller holds the result of an earlier refresh (four
entries, one open, three closed); the "open" request is answered and the "closed"
request fails.  `refreshMilestones` returns the error, and `gr.Milestones` now is the
one entry collected before the failure, while the counters still say 1 and 3. -/
theorem refreshMilestones_failure_overwrites :
    (refreshMilestones goStdlib Example.failingClient () Example.refreshed.gr
        Example.config).map (fun out => (out.gr, out.err)) =
      some ({ Milestones := [Example.entryV2], OpenMS := 1, ClosedMS := 3 },
            some "502 Bad Gateway") ∧
    Example.refreshed.gr.Milestones =
      [Example.entryV09, Example.entryV1, Example.entryV11, Example.entryV2] := by
  decide

/-! ## A closed milestone without close time -/

/-- C7 fails on the code.  With a cutoff set, a "closed" reply that holds a milestone
without close time makes `getMilestones` panic on `*v.ClosedAt`; without a cutoff the
same reply yields the entry. -/
theorem getMilestones_panics_without_close_time :
    getMilestones goStdlib Example.noStampClient () Example.configSince = none ∧
    (getMilestones goStdlib Example.noStampClient () Example.config).map
        (fun r => (r.ret.map (fun m => m.Name), r.err)) = some (["v0.1"], none) :=
  ⟨rfl, by decide⟩

/-! ## The requests issued -/

theorem resolvedRepositories_first (lists : List githubBranch) (orb : githubBranch)
    (hmem : orb ∈ resolvedRepositories lists) :
    lists.find? (fun o => o.Included && decide (rNameOf o = rNameOf orb)) = some orb := by
  induction lists with
  | nil => simp [resolvedRepositories] at hmem
  | cons x lists ih =>
    unfold resolvedRepositories at hmem
    by_cases hinc : x.Included = true
    · simp only [hinc, if_true, List.mem_cons] at hmem
      rcases hmem with hx | hx
      · subst hx
        simp [List.find?_cons, hinc]
      · obtain ⟨hx1, hx2⟩ := List.mem_filter.mp hx
        have hne : rNameOf x ≠ rNameOf orb := by
          intro heq
          simp [heq] at hx2
        simp only [List.find?_cons, hinc, Bool.true_and, hne, decide_False]
        exact ih hx1
    · have hinc1 : x.Included = false := by simpa using hinc
      simp only [hinc1, Bool.false_eq_true, if_false] at hmem
      simp only [List.find?_cons, hinc1, Bool.false_and]
      exact ih hmem

/-- C4.  The requests a successful `getMilestones` issued are, for each resolved
repository in order, one with state "open" followed by one with state "closed".  The
resolved repositories are the included entries of `config.Lists`, each identifier
`Owner + "/" + Repo` kept at its first occurrence: their identifiers are pairwise
distinct, they form a subsequence of `config.Lists`, every identifier of an included
entry is among theirs, each is the first included entry with its identifier, there
are at most `len(config.Lists)` of them, and the number of requests is twice theirs. -/
theorem requests_per_resolved_repository {σ : Type} (lib : Stdlib)
    (client : gogithub.Client σ) (remote : σ) (config : githubConfig) (r : Fetched σ)
    (h : getMilestones lib client remote config = some r) (hok : r.err = none) :
    r.calls.map Call.request = (resolvedRepositories config.Lists).flatMap
      (fun orb => [requestOf config orb "open", requestOf config orb "closed"]) ∧
    ((resolvedRepositories config.Lists).map rNameOf).Nodup ∧
    List.Sublist (resolvedRepositories config.Lists) config.Lists ∧
    (∀ k, k ∈ (resolvedRepositories config.Lists).map rNameOf ↔
      ∃ orb ∈ config.Lists, orb.Included = true ∧ rNameOf orb = k) ∧
    (∀ orb ∈ resolvedRepositories config.Lists,
      config.Lists.find? (fun o => o.Included && decide (rNameOf o = rNameOf orb))
        = some orb) ∧
    (resolvedRepositories config.Lists).length ≤ config.Lists.length ∧
    r.calls.length = 2 * (resolvedRepositories config.Lists).length := by
  obtain ⟨parts, _, _, hreq, _⟩ := getMilestones_ok lib client remote config r h hok
  refine ⟨hreq, resolvedRepositories_nodup _, resolvedRepositories_sublist _,
    mem_resolvedRepositories _, resolvedRepositories_first _,
    (resolvedRepositories_sublist _).length_le, ?_⟩
  have hlen := congrArg List.length hreq
  rw [List.length_map] at hlen
  rw [hlen]
  generalize resolvedRepositories config.Lists = l
  induction l with
  | nil => rfl
  | cons x l ih => simp only [List.flatMap_cons, List.length_append, ih, List.length_cons,
      List.length_nil]; omega

/-- The theorem `requests_per_resolved_repository` at a configuration that lists
`acme/widgets` twice, both times included: one "open" and one "closed" request. -/
theorem requests_per_resolved_repository_witness :
    getMilestones goStdlib Example.acmeClient () Example.configTwice = some Example.fetched ∧
    Example.fetched.err = none ∧
    (Example.fetched.calls.map Call.request =
        (resolvedRepositories Example.configTwice.Lists).flatMap
          (fun orb => [requestOf Example.configTwice orb "open",
                       requestOf Example.configTwice orb "closed"]) ∧
      ((resolvedRepositories Example.configTwice.Lists).map rNameOf).Nodup ∧
      List.Sublist (resolvedRepositories Example.configTwice.Lists) Example.configTwice.Lists ∧
      (∀ k, k ∈ (resolvedRepositories Example.configTwice.Lists).map rNameOf ↔
        ∃ orb ∈ Example.configTwice.Lists, orb.Included = true ∧ rNameOf orb = k) ∧
      (∀ orb ∈ resolvedRepositories Example.configTwice.Lists,
        Example.configTwice.Lists.find?
          (fun o => o.Included && decide (rNameOf o = rNameOf orb)) = some orb) ∧
      (resolvedRepositories Example.configTwice.Lists).length ≤
        Example.configTwice.Lists.length ∧
      Example.fetched.calls.length = 2 * (resolvedRepositories Example.configTwice.Lists).length) ∧
    resolvedRepositories Example.configTwice.Lists = [Example.acmeWidgets] ∧
    Example.fetched.calls.map Call.request =
      [("acme", "widgets", ⟨"updated", "open", ⟨30⟩⟩),
       ("acme", "widgets", ⟨"updated", "closed", ⟨30⟩⟩)] :=
  ⟨rfl, rfl, requests_per_resolved_repository goStdlib Example.acmeClient ()
    Example.configTwice Example.fetched rfl rfl, by decide, by decide⟩

/-! ## Duplicates -/

theorem append_cons_inj_of_not_mem {α : Type} (c : α) (l₁ l₂ r₁ r₂ : List α)
    (h₁ : c ∉ l₁) (h₂ : c ∉ l₂) (h : l₁ ++ c :: r₁ = l₂ ++ c :: r₂) :
    l₁ = l₂ ∧ r₁ = r₂ := by
  induction l₁ generalizing l₂ with
  | nil =>
    cases l₂ with
    | nil => simpa using h
    | cons y ys =>
      simp only [List.nil_append, List.cons_append, List.cons.injEq] at h
      exact absurd (List.mem_cons.mpr (Or.inl h.1)) h₂
  | cons x xs ih =>
    cases l₂ with
    | nil =>
      simp only [List.nil_append, List.cons_append, List.cons.injEq] at h
      exact absurd (List.mem_cons.mpr (Or.inl h.1.symm)) h₁
    | cons y ys =>
      simp only [List.cons_append, List.cons.injEq] at h
      obtain ⟨hl, hr⟩ := ih ys (fun hc => h₁ (List.mem_cons_of_mem _ hc))
        (fun hc => h₂ (List.mem_cons_of_mem _ hc)) h.2
      exact ⟨by rw [h.1, hl], hr⟩

/-- When neither owner contains a slash, two entries have the same identifier exactly
when they have the same owner and the same name. -/
theorem rNameOf_eq_iff (a b : githubBranch)
    (ha : '/' ∉ a.Owner.toList) (hb : '/' ∉ b.Owner.toList) :
    rNameOf a = rNameOf b ↔ a.Owner = b.Owner ∧ a.Repo = b.Repo := by
  constructor
  · intro h
    have hd := congrArg String.toList h
    simp only [rNameOf, String.toList, String.data_append] at hd
    rw [List.append_assoc, List.singleton_append] at hd
    rw [List.append_assoc, List.singleton_append] at hd
    obtain ⟨h1, h2⟩ := append_cons_inj_of_not_mem '/' _ _ _ _ ha hb hd
    exact ⟨String.ext h1, String.ext h2⟩
  · rintro ⟨h1, h2⟩
    simp [rNameOf, h1, h2]

theorem resolvedRepositories_append_singleton (pre : List githubBranch)
    (orb : githubBranch) (hinc : orb.Included = true) :
    resolvedRepositories (pre ++ [orb]) = resolvedRepositories pre ++
      (if (∃ o ∈ pre, o.Included = true ∧ rNameOf o = rNameOf orb) then [] else [orb]) := by
  induction pre with
  | nil => simp [resolvedRepositories, hinc]
  | cons x pre ih =>
    simp only [List.cons_append]
    unfold resolvedRepositories
    by_cases hx : x.Included = true
    · simp only [hx, if_true, ih, List.filter_append, List.cons_append, List.mem_cons,
        exists_eq_or_imp, true_and]
      congr 1
      congr 1
      by_cases hdup : ∃ o ∈ pre, o.Included = true ∧ rNameOf o = rNameOf orb
      · simp [hdup]
      · by_cases hxo : rNameOf x = rNameOf orb
        · simp [hdup, hxo]
        · have hxo1 : ¬ rNameOf orb = rNameOf x := fun hc => hxo hc.symm
          simp [hdup, hxo, hxo1]
    · have hx1 : x.Included = false := by simpa using hx
      simp only [hx1, Bool.false_eq_true, if_false, ih, List.mem_cons, exists_eq_or_imp,
        false_and, false_or]

/-- C5, as the code has it.  Duplicates are told by the identifier
`Owner + "/" + Repo`.  Take a list `pre` of entries and an included entry `orb` after
them.  No request is issued for `orb` (the requests for `pre ++ [orb]` are those for
`pre`) exactly when an included entry of `pre` has the same identifier; otherwise the
requests for `pre` are followed by an "open" and a "closed" request for `orb`.  When
no owner contains a slash, having the same identifier is having the same owner and the
same name. -/
theorem duplicate_iff_same_identifier {σ : Type} (lib : Stdlib)
    (client : gogithub.Client σ) (remote : σ) (config : githubConfig)
    (pre : List githubBranch) (orb : githubBranch) (rPre rAll : Fetched σ)
    (hinc : orb.Included = true)
    (hPre : getMilestones lib client remote { config with Lists := pre } = some rPre)
    (hPreOk : rPre.err = none)
    (hAll : getMilestones lib client remote { config with Lists := pre ++ [orb] } = some rAll)
    (hAllOk : rAll.err = none) :
    (rAll.calls.map Call.request = rPre.calls.map Call.request ↔
      ∃ o ∈ pre, o.Included = true ∧
        o.Owner ++ "/" ++ o.Repo = orb.Owner ++ "/" ++ orb.Repo) ∧
    ((¬ ∃ o ∈ pre, o.Included = true ∧
        o.Owner ++ "/" ++ o.Repo = orb.Owner ++ "/" ++ orb.Repo) →
      rAll.calls.map Call.request = rPre.calls.map Call.request ++
        [requestOf config orb "open", requestOf config orb "closed"]) ∧
    ((∀ o ∈ pre, '/' ∉ o.Owner.toList) → '/' ∉ orb.Owner.toList →
      ((∃ o ∈ pre, o.Included = true ∧
          o.Owner ++ "/" ++ o.Repo = orb.Owner ++ "/" ++ orb.Repo) ↔
        ∃ o ∈ pre, o.Included = true ∧ o.Owner = orb.Owner ∧ o.Repo = orb.Repo)) := by
  obtain ⟨_, _, _, hreqPre, _⟩ := getMilestones_ok lib client remote _ rPre hPre hPreOk
  obtain ⟨_, _, _, hreqAll, _⟩ := getMilestones_ok lib client remote _ rAll hAll hAllOk
  simp only [resolvedRepositories_append_singleton pre orb hinc, List.flatMap_append]
    at hreqAll
  have hreq1 : ∀ o : githubBranch,
      requestOf { config with Lists := pre ++ [orb] } o = requestOf config o := fun _ => rfl
  have hreq2 : ∀ o : githubBranch,
      requestOf { config with Lists := pre } o = requestOf config o := fun _ => rfl
  simp only [hreq1] at hreqAll
  simp only [hreq2] at hreqPre
  rw [← hreqPre] at hreqAll
  have hdupiff : (∃ o ∈ pre, o.Included = true ∧ rNameOf o = rNameOf orb) ↔
      ∃ o ∈ pre, o.Included = true ∧
        o.Owner ++ "/" ++ o.Repo = orb.Owner ++ "/" ++ orb.Repo := Iff.rfl
  rw [← hdupiff]
  refine ⟨?_, ?_, ?_⟩
  · by_cases hdup : ∃ o ∈ pre, o.Included = true ∧ rNameOf o = rNameOf orb
    · simp only [hdup, if_true, List.flatMap_nil, List.append_nil] at hreqAll
      exact ⟨fun _ => hdup, fun _ => hreqAll⟩
    · simp only [hdup, if_false, List.flatMap_cons, List.flatMap_nil, List.append_nil]
        at hreqAll
      refine ⟨fun heq => ?_, fun hc => absurd hc hdup⟩
      rw [heq] at hreqAll
      have := congrArg List.length hreqAll
      simp at this
  · intro hdup
    simpa [hdup] using hreqAll
  · intro hpre horb
    constructor
    · rintro ⟨o, ho, hoinc, heq⟩
      exact ⟨o, ho, hoinc, (rNameOf_eq_iff o orb (hpre o ho) horb).mp heq⟩
    · rintro ⟨o, ho, hoinc, heq⟩
      exact ⟨o, ho, hoinc, (rNameOf_eq_iff o orb (hpre o ho) horb).mpr heq⟩

/-- C5 as stated fails: the two included entries of `configSlash` differ in owner and
in name, and only the first is queried. -/
theorem pair_equality_counterexample :
    (getMilestones goStdlib Example.acmeClient () Example.configSlash).map
        (fun r => (r.err, r.calls.map Call.request)) =
      some (none, [("a/b", "c", ⟨"updated", "open", ⟨30⟩⟩),
                   ("a/b", "c", ⟨"updated", "closed", ⟨30⟩⟩)]) ∧
    Example.configSlash.Lists =
      [{ Owner := "a/b", Repo := "c", Included := true },
       { Owner := "a", Repo := "b/c", Included := true }] ∧
    ("a/b" : String) ≠ "a" ∧ ("c" : String) ≠ "b/c" := by
  decide

/-- The theorem `duplicate_iff_same_identifier` at `acme/widgets` listed a second
time: the second listing adds no request. -/
theorem duplicate_iff_same_identifier_witness :
    Example.acmeWidgets.Included = true ∧
    getMilestones goStdlib Example.acmeClient ()
      { Example.config with Lists := [Example.acmeWidgets] } = some Example.fetched ∧
    getMilestones goStdlib Example.acmeClient ()
      { Example.config with Lists := [Example.acmeWidgets] ++ [Example.acmeWidgets] } =
        some Example.fetched ∧
    Example.fetched.err = none ∧
    ((Example.fetched.calls.map Call.request = Example.fetched.calls.map Call.request ↔
        ∃ o ∈ [Example.acmeWidgets], o.Included = true ∧
          o.Owner ++ "/" ++ o.Repo =
            Example.acmeWidgets.Owner ++ "/" ++ Example.acmeWidgets.Repo) ∧
      ((¬ ∃ o ∈ [Example.acmeWidgets], o.Included = true ∧
          o.Owner ++ "/" ++ o.Repo =
            Example.acmeWidgets.Owner ++ "/" ++ Example.acmeWidgets.Repo) →
        Example.fetched.calls.map Call.request = Example.fetched.calls.map Call.request ++
          [requestOf Example.config Example.acmeWidgets "open",
           requestOf Example.config Example.acmeWidgets "closed"]) ∧
      ((∀ o ∈ [Example.acmeWidgets], '/' ∉ o.Owner.toList) →
        '/' ∉ Example.acmeWidgets.Owner.toList →
        ((∃ o ∈ [Example.acmeWidgets], o.Included = true ∧
            o.Owner ++ "/" ++ o.Repo =
              Example.acmeWidgets.Owner ++ "/" ++ Example.acmeWidgets.Repo) ↔
          ∃ o ∈ [Example.acmeWidgets], o.Included = true ∧
            o.Owner = Example.acmeWidgets.Owner ∧ o.Repo = Example.acmeWidgets.Repo))) :=
  ⟨rfl, rfl, rfl, rfl, duplicate_iff_same_identifier goStdlib Example.acmeClient ()
    Example.config [Example.acmeWidgets] Example.acmeWidgets Example.fetched Example.fetched
    rfl rfl rfl rfl rfl⟩

/-! ## The recency filter -/

theorem includeOf_of_ne_closed (config : githubConfig) (state : String)
    (v : gogithub.Milestone) (hstate : state ≠ "closed") :
    includeOf config state v = some true := by
  simp [includeOf, hstate]

theorem includeOf_closed_since (config : githubConfig) (since : Time)
    (v : gogithub.Milestone) (hsince : config.SincePtr = some since) :
    includeOf config "closed" v =
      match v.ClosedAt with
      | none => none
      | some closedAt => some (!(closedAt.Before since)) := by
  simp only [includeOf, hsince, if_true]
  cases v.ClosedAt with
  | none => rfl
  | some closedAt =>
    simp only [Time.After, Time.Before]
    by_cases hlt : closedAt.ns < since.ns <;> simp [hlt]

/-- C6.  Take a successful run with the cutoff `since` configured.  Its result is a
rearrangement of the entries of its calls.  Every milestone of a "closed" reply has a
close time, and the entries of that call are those built, in order, from exactly the
milestones whose close time is not strictly earlier than the cutoff; the entries of
any other call are those built from all milestones of the reply.  So a milestone
closed before the cutoff contributes no entry, and one closed at or after the cutoff
has its entry in the result. -/
theorem closed_kept_iff_not_before_cutoff {σ : Type} (lib : Stdlib)
    (client : gogithub.Client σ) (remote : σ) (config : githubConfig) (r : Fetched σ)
    (since : Time)
    (h : getMilestones lib client remote config = some r) (hok : r.err = none)
    (hsince : config.SincePtr = some since) :
    (∃ parts : List (List githubMilestone),
      List.Perm r.ret parts.flatten ∧
      List.Forall₂ (fun (c : Call) (part : List githubMilestone) =>
        ∃ guff, c.reply = .ok guff ∧
          (c.opts.State = "closed" →
            (∀ v ∈ guff, ∃ closedAt, v.ClosedAt = some closedAt) ∧
            (guff.filter (fun v =>
                match v.ClosedAt with
                | some closedAt => !(closedAt.Before since)
                | none => true)).map (entryOf lib (c.Owner ++ "/" ++ c.Repo))
              = part.map some) ∧
          (c.opts.State ≠ "closed" →
            guff.map (entryOf lib (c.Owner ++ "/" ++ c.Repo)) = part.map some))
        r.calls parts) ∧
    (∀ c ∈ r.calls, c.opts.State = "closed" → ∀ guff, c.reply = .ok guff →
      ∀ v ∈ guff, ∀ closedAt, v.ClosedAt = some closedAt →
        closedAt.Before since = false →
          ∃ m, entryOf lib (c.Owner ++ "/" ++ c.Repo) v = some m ∧ m ∈ r.ret) := by
  obtain ⟨parts, hret, hall, _⟩ := getMilestones_parts lib client remote config r h hok
  have hperm : List.Perm r.ret parts.flatten := by rw [hret]; exact Stable_perm lib _
  have hall2 : List.Forall₂ (fun (c : Call) (part : List githubMilestone) =>
        ∃ guff, c.reply = .ok guff ∧
          (c.opts.State = "closed" →
            (∀ v ∈ guff, ∃ closedAt, v.ClosedAt = some closedAt) ∧
            (guff.filter (fun v =>
                match v.ClosedAt with
                | some closedAt => !(closedAt.Before since)
                | none => true)).map (entryOf lib (c.Owner ++ "/" ++ c.Repo))
              = part.map some) ∧
          (c.opts.State ≠ "closed" →
            guff.map (entryOf lib (c.Owner ++ "/" ++ c.Repo)) = part.map some))
        r.calls parts := by
    refine hall.imp ?_
    rintro c part ⟨guff, hguff, hrange⟩
    obtain ⟨hdef, hmap⟩ := rangeGuff_spec lib config _ _ guff part hrange
    refine ⟨guff, hguff, ?_, ?_⟩
    · intro hst
      rw [hst] at hdef hmap
      have hstamp : ∀ v ∈ guff, ∃ closedAt, v.ClosedAt = some closedAt := by
        intro v hv
        obtain ⟨b, hb⟩ := hdef v hv
        rw [includeOf_closed_since config since v hsince] at hb
        cases hc : v.ClosedAt with
        | none => rw [hc] at hb; exact Option.noConfusion hb
        | some closedAt => exact ⟨closedAt, rfl⟩
      refine ⟨hstamp, ?_⟩
      rw [← hmap]
      congr 1
      apply List.filter_congr
      intro v hv
      obtain ⟨closedAt, hc⟩ := hstamp v hv
      rw [includeOf_closed_since config since v hsince, hc]
      cases hb : closedAt.Before since <;> simp [hb]
    · intro hst
      rw [← hmap]
      congr 1
      symm
      apply List.filter_eq_self.mpr
      intro v _
      rw [includeOf_of_ne_closed config _ v hst]
      rfl
  refine ⟨⟨parts, hperm, hall2⟩, ?_⟩
  intro c hc hst guff hguff v hv closedAt hclosed hnot
  obtain ⟨part, hpart, guff', hguff', hcl, _⟩ := forall₂_exists_of_mem _ _ _ hall2 c hc
  rw [hguff] at hguff'
  cases hguff'
  obtain ⟨_, hmap⟩ := hcl hst
  have hvmem : entryOf lib (c.Owner ++ "/" ++ c.Repo) v ∈ part.map some := by
    rw [← hmap]
    refine List.mem_map.mpr ⟨v, List.mem_filter.mpr ⟨hv, ?_⟩, rfl⟩
    simp [hclosed, hnot]
  obtain ⟨m, hm, hmeq⟩ := List.mem_map.mp hvmem
  exact ⟨m, hmeq.symm, hperm.mem_iff.mpr (List.mem_flatten.mpr ⟨part, hpart, hm⟩)⟩

/-- The theorem `closed_kept_iff_not_before_cutoff` at the repository `acme/widgets`
with the cutoff January 10, 2017: `v1.0`, closed on that day, is kept; `v1.1`, closed
the day before, and `v0.9` are dropped. -/
theorem closed_kept_iff_not_before_cutoff_witness :
    getMilestones goStdlib Example.acmeClient () Example.configSince =
      some Example.fetchedSince ∧
    Example.fetchedSince.err = none ∧
    Example.configSince.SincePtr = some (Example.day 2017 1 10) ∧
    ((∃ parts : List (List githubMilestone),
        List.Perm Example.fetchedSince.ret parts.flatten ∧
        List.Forall₂ (fun (c : Call) (part : List githubMilestone) =>
          ∃ guff, c.reply = .ok guff ∧
            (c.opts.State = "closed" →
              (∀ v ∈ guff, ∃ closedAt, v.ClosedAt = some closedAt) ∧
              (guff.filter (fun v =>
                  match v.ClosedAt with
                  | some closedAt => !(closedAt.Before (Example.day 2017 1 10))
                  | none => true)).map (entryOf goStdlib (c.Owner ++ "/" ++ c.Repo))
                = part.map some) ∧
            (c.opts.State ≠ "closed" →
              guff.map (entryOf goStdlib (c.Owner ++ "/" ++ c.Repo)) = part.map some))
          Example.fetchedSince.calls parts) ∧
      (∀ c ∈ Example.fetchedSince.calls, c.opts.State = "closed" →
        ∀ guff, c.reply = .ok guff →
        ∀ v ∈ guff, ∀ closedAt, v.ClosedAt = some closedAt →
          closedAt.Before (Example.day 2017 1 10) = false →
            ∃ m, entryOf goStdlib (c.Owner ++ "/" ++ c.Repo) v = some m ∧
              m ∈ Example.fetchedSince.ret)) ∧
    Example.fetchedSince.ret = [Example.entryV1, Example.entryV2] ∧
    Example.fetchedSince.calls.map (entriesOfCall goStdlib Example.configSince) =
      [some [Example.entryV2], some [Example.entryV1]] :=
  ⟨rfl, rfl, rfl, closed_kept_iff_not_before_cutoff goStdlib Example.acmeClient ()
    Example.configSince Example.fetchedSince (Example.day 2017 1 10) rfl rfl rfl,
    rfl, by decide⟩

/-- C8.  Take a successful run, whatever the cutoff.  Its result is a rearrangement of
the entries of its calls, and the entries of an "open" call are those built, in
order, from all milestones of the reply, one for each, whatever close time a
milestone carries.  So every milestone of an "open" reply has its entry in the
result. -/
theorem open_bypass_recency_filter {σ : Type} (lib : Stdlib)
    (client : gogithub.Client σ) (remote : σ) (config : githubConfig) (r : Fetched σ)
    (h : getMilestones lib client remote config = some r) (hok : r.err = none) :
    (∃ parts : List (List githubMilestone),
      List.Perm r.ret parts.flatten ∧
      List.Forall₂ (fun (c : Call) (part : List githubMilestone) =>
        ∃ guff, c.reply = .ok guff ∧
          (c.opts.State = "open" →
            guff.map (entryOf lib (c.Owner ++ "/" ++ c.Repo)) = part.map some ∧
            part.length = guff.length))
        r.calls parts) ∧
    (∀ c ∈ r.calls, c.opts.State = "open" → ∀ guff, c.reply = .ok guff →
      ∀ v ∈ guff, ∃ m, entryOf lib (c.Owner ++ "/" ++ c.Repo) v = some m ∧ m ∈ r.ret) := by
  obtain ⟨parts, hret, hall, _⟩ := getMilestones_parts lib client remote config r h hok
  have hperm : List.Perm r.ret parts.flatten := by rw [hret]; exact Stable_perm lib _
  have hall2 : List.Forall₂ (fun (c : Call) (part : List githubMilestone) =>
        ∃ guff, c.reply = .ok guff ∧
          (c.opts.State = "open" →
            guff.map (entryOf lib (c.Owner ++ "/" ++ c.Repo)) = part.map some ∧
            part.length = guff.length))
        r.calls parts := by
    refine hall.imp ?_
    rintro c part ⟨guff, hguff, hrange⟩
    obtain ⟨_, hmap⟩ := rangeGuff_spec lib config _ _ guff part hrange
    refine ⟨guff, hguff, ?_⟩
    intro hst
    have hne : c.opts.State ≠ "closed" := by rw [hst]; decide
    have hfil : guff.filter (fun v => includeOf config c.opts.State v == some true) = guff := by
      apply List.filter_eq_self.mpr
      intro v _
      rw [includeOf_of_ne_closed config _ v hne]
      rfl
    rw [hfil] at hmap
    refine ⟨hmap, ?_⟩
    have := congrArg List.length hmap
    simpa using this.symm
  refine ⟨⟨parts, hperm, hall2⟩, ?_⟩
  intro c hc hst guff hguff v hv
  obtain ⟨part, hpart, guff', hguff', hop⟩ := forall₂_exists_of_mem _ _ _ hall2 c hc
  rw [hguff] at hguff'
  cases hguff'
  obtain ⟨hmap, _⟩ := hop hst
  have hvmem : entryOf lib (c.Owner ++ "/" ++ c.Repo) v ∈ part.map some := by
    rw [← hmap]
    exact List.mem_map.mpr ⟨v, hv, rfl⟩
  obtain ⟨m, hm, hmeq⟩ := List.mem_map.mp hvmem
  exact ⟨m, hmeq.symm, hperm.mem_iff.mpr (List.mem_flatten.mpr ⟨part, hpart, hm⟩)⟩

/-- The theorem `open_bypass_recency_filter` at the repository `acme/widgets` with the
cutoff January 10, 2017: the open milestone `v2.0` has its entry in the result. -/
theorem open_bypass_recency_filter_witness :
    getMilestones goStdlib Example.acmeClient () Example.configSince =
      some Example.fetchedSince ∧
    Example.fetchedSince.err = none ∧
    ((∃ parts : List (List githubMilestone),
        List.Perm Example.fetchedSince.ret parts.flatten ∧
        List.Forall₂ (fun (c : Call) (part : List githubMilestone) =>
          ∃ guff, c.reply = .ok guff ∧
            (c.opts.State = "open" →
              guff.map (entryOf goStdlib (c.Owner ++ "/" ++ c.Repo)) = part.map some ∧
              part.length = guff.length))
          Example.fetchedSince.calls parts) ∧
      (∀ c ∈ Example.fetchedSince.calls, c.opts.State = "open" →
        ∀ guff, c.reply = .ok guff →
        ∀ v ∈ guff, ∃ m, entryOf goStdlib (c.Owner ++ "/" ++ c.Repo) v = some m ∧
          m ∈ Example.fetchedSince.ret)) ∧
    entryOf goStdlib "acme/widgets" Example.openV2 = some Example.entryV2 ∧
    Example.entryV2 ∈ Example.fetchedSince.ret :=
  ⟨rfl, rfl, open_bypass_recency_filter goStdlib Example.acmeClient ()
    Example.configSince Example.fetchedSince rfl rfl, by decide, by decide⟩

/-! ## The comparison is a strict weak ordering -/

/-- C18.  `milestonesToSort.Less` is a strict weak ordering on all entries, whatever
their `UpdatedAt` holds: it is irreflexive and transitive, and being incomparable
(neither `Less(i, j)` nor `Less(j, i)`) is transitive. -/
theorem Less_strict_weak_ordering (lib : Stdlib) :
    (∀ a : githubMilestone, Less lib a a = false) ∧
    (∀ a b c : githubMilestone, Less lib a b = true → Less lib b c = true →
      Less lib a c = true) ∧
    (∀ a b c : githubMilestone,
      (Less lib a b = false ∧ Less lib b a = false) →
      (Less lib b c = false ∧ Less lib c b = false) →
      (Less lib a c = false ∧ Less lib c a = false)) := by
  refine ⟨?_, ?_, ?_⟩
  · intro a
    unfold Less
    cases a.IsOpen <;> simp [Time.Before]
  · intro a b c hab hbc
    unfold Less at *
    cases ha : a.IsOpen <;> cases hb : b.IsOpen <;> cases hc : c.IsOpen <;>
      simp_all [Time.Before] <;> omega
  · rintro a b c ⟨hab, hba⟩ ⟨hbc, hcb⟩
    exact ⟨Less_negtrans lib a b c hab hbc, Less_negtrans lib c b a hcb hba⟩

/-! ## A refresh starts afresh -/

/-- C16.  A refresh that returns no error leaves the same `Milestones`, `OpenMS` and
`ClosedMS` whatever `*gr` held before: started from another `*gr` with the same
configuration, client and state of the remote side, it returns no error either and
leaves the same three values.  In particular the counters do not add to the ones
found. -/
theorem refreshMilestones_ignores_prior {σ : Type} (lib : Stdlib)
    (client : gogithub.Client σ) (remote : σ) (gr₁ gr₂ : githubRender)
    (config : githubConfig) (out₁ : Refreshed σ)
    (h : refreshMilestones lib client remote gr₁ config = some out₁)
    (hok : out₁.err = none) :
    ∃ out₂, refreshMilestones lib client remote gr₂ config = some out₂ ∧
      out₂.err = none ∧
      out₂.gr.Milestones = out₁.gr.Milestones ∧
      out₂.gr.OpenMS = out₁.gr.OpenMS ∧
      out₂.gr.ClosedMS = out₁.gr.ClosedMS ∧
      out₂.remote = out₁.remote ∧
      out₁.gr.OpenMS = (countLoop out₁.gr.Milestones (0, 0)).1 ∧
      out₁.gr.ClosedMS = (countLoop out₁.gr.Milestones (0, 0)).2 := by
  unfold refreshMilestones at h ⊢
  cases hget : getMilestones lib client remote config with
  | none => rw [hget] at h; exact Option.noConfusion h
  | some fetched =>
    rw [hget] at h
    simp only at h ⊢
    cases herr : fetched.err with
    | some err =>
      rw [herr] at h
      simp only [Option.some.injEq] at h
      subst h
      exact Option.noConfusion hok
    | none =>
      rw [herr] at h
      simp only [Option.some.injEq] at h
      subst h
      exact ⟨_, rfl, rfl, rfl, rfl, rfl, rfl, rfl, rfl⟩

/-- The theorem `refreshMilestones_ignores_prior` at the repository `acme/widgets`:
a refresh started with counters 7 and 7, and one started with the result of an earlier
refresh, both leave one open and three closed. -/
theorem refreshMilestones_ignores_prior_witness :
    refreshMilestones goStdlib Example.acmeClient () ⟨[], 7, 7⟩ Example.config =
      some Example.refreshed ∧
    Example.refreshed.err = none ∧
    (∃ out₂, refreshMilestones goStdlib Example.acmeClient () Example.refreshed.gr
        Example.config = some out₂ ∧
      out₂.err = none ∧
      out₂.gr.Milestones = Example.refreshed.gr.Milestones ∧
      out₂.gr.OpenMS = Example.refreshed.gr.OpenMS ∧
      out₂.gr.ClosedMS = Example.refreshed.gr.ClosedMS ∧
      out₂.remote = Example.refreshed.remote ∧
      Example.refreshed.gr.OpenMS = (countLoop Example.refreshed.gr.Milestones (0, 0)).1 ∧
      Example.refreshed.gr.ClosedMS =
        (countLoop Example.refreshed.gr.Milestones (0, 0)).2) ∧
    Example.refreshed.gr.OpenMS = 1 ∧ Example.refreshed.gr.ClosedMS = 3 :=
  ⟨rfl, rfl, refreshMilestones_ignores_prior goStdlib Example.acmeClient () ⟨[], 7, 7⟩
    Example.refreshed.gr Example.config Example.refreshed rfl rfl, rfl, rfl⟩

/-! ## A failed request ends the run -/

theorem rangeStates_failed {σ : Type} (lib : Stdlib) (client : gogithub.Client σ)
    (config : githubConfig) (orb : githubBranch) (rName : String) (states : List String)
    (vars vars' : Vars σ) (err : String)
    (h : rangeStates lib client config orb rName states vars = some (vars', some err)) :
    ∃ (init : List Call) (last : Call), vars'.calls = vars.calls ++ (init ++ [last]) ∧
      last.reply = .error err ∧ ∀ c ∈ init, ∃ guff, c.reply = .ok guff := by
  induction states generalizing vars with
  | nil => simp [rangeStates] at h
  | cons state states ih =>
    simp only [rangeStates] at h
    cases hans : (client.ListMilestones vars.remote orb.Owner orb.Repo
        { SortBy := "updated", State := state,
          ListOptions := { PerPage := config.BranchLines } }).1 with
    | error err1 =>
      rw [hans] at h
      simp only [Option.some.injEq, Prod.mk.injEq] at h
      obtain ⟨h1, h2⟩ := h
      subst h1 h2
      exact ⟨[], _, rfl, rfl, by simp⟩
    | ok guff =>
      rw [hans] at h
      simp only at h
      cases hpart : rangeGuff lib config rName state guff vars.ret with
      | none => rw [hpart] at h; exact Option.noConfusion h
      | some ret1 =>
        rw [hpart] at h
        obtain ⟨init, last, h1, h2, h3⟩ := ih _ h
        refine ⟨Call.mk orb.Owner orb.Repo ⟨"updated", state, ⟨config.BranchLines⟩⟩
          (.ok guff) :: init, last, ?_, h2, ?_⟩
        · rw [h1]; simp
        · intro c hc
          rcases List.mem_cons.mp hc with hc | hc
          · subst hc; exact ⟨guff, rfl⟩
          · exact h3 c hc

theorem rangeLists_failed {σ : Type} (lib : Stdlib) (client : gogithub.Client σ)
    (config : githubConfig) (lists : List githubBranch)
    (vars vars' : Vars σ) (err : String)
    (h : rangeLists lib client config lists vars = some (vars', some err)) :
    ∃ (init : List Call) (last : Call), vars'.calls = vars.calls ++ (init ++ [last]) ∧
      last.reply = .error err ∧ ∀ c ∈ init, ∃ guff, c.reply = .ok guff := by
  induction lists generalizing vars with
  | nil => simp [rangeLists] at h
  | cons orb lists ih =>
    simp only [rangeLists] at h
    by_cases hinc : orb.Included = true
    · simp only [hinc, if_true] at h
      by_cases hhad : vars.hadRepo (rNameOf orb) = true
      · simp only [hhad, Bool.not_true, Bool.false_eq_true, if_false] at h
        obtain ⟨init, last, h1, h2, h3⟩ := ih _ h
        exact ⟨init, last, h1, h2, h3⟩
      · have hhad1 : vars.hadRepo (rNameOf orb) = false := by simpa using hhad
        simp only [hhad1, Bool.not_false, if_true] at h
        cases hvis : rangeStates lib client config orb (rNameOf orb) ["open", "closed"] vars with
        | none => rw [hvis] at h; exact Option.noConfusion h
        | some res =>
          obtain ⟨vars1, e1⟩ := res
          rw [hvis] at h
          cases e1 with
          | some err1 =>
            simp only [Option.some.injEq, Prod.mk.injEq] at h
            obtain ⟨h1, h2⟩ := h
            subst h1 h2
            exact rangeStates_failed lib client config orb _ _ vars _ _ hvis
          | none =>
            simp only at h
            obtain ⟨_, calls1, _, s2, _, _, s5⟩ :=
              rangeStates_spec lib client config orb _ vars vars1 none hvis
            obtain ⟨_, s7⟩ := s5 rfl
            obtain ⟨init, last, h1, h2, h3⟩ := ih _ h
            refine ⟨calls1 ++ init, last, ?_, h2, ?_⟩
            · rw [h1]; simp [s2, List.append_assoc]
            · intro c hc
              rcases List.mem_append.mp hc with hc | hc
              · exact s7 c hc
              · exact h3 c hc
    · have hinc1 : orb.Included = false := by simpa using hinc
      simp only [hinc1, Bool.false_eq_true, if_false] at h
      exact ih _ h

/-- The calls of a run that returns: either all were answered and the run returns no
error, or the last one failed, all before it were answered, and the run returns the
error of the last one. -/
theorem getMilestones_calls {σ : Type} (lib : Stdlib) (client : gogithub.Client σ)
    (remote : σ) (config : githubConfig) (r : Fetched σ)
    (h : getMilestones lib client remote config = some r) :
    (r.err = none ∧ ∀ c ∈ r.calls, ∃ guff, c.reply = .ok guff) ∨
    (∃ (err : String) (init : List Call) (last : Call), r.err = some err ∧
      r.calls = init ++ [last] ∧ last.reply = .error err ∧
      ∀ c ∈ init, ∃ guff, c.reply = .ok guff) := by
  cases herr : r.err with
  | none =>
    obtain ⟨_, _, _, _, hrep⟩ := getMilestones_ok lib client remote config r h herr
    exact Or.inl ⟨rfl, hrep⟩
  | some err =>
    right
    unfold getMilestones at h
    cases hrun : rangeLists lib client config config.Lists (initVars remote) with
    | none => rw [hrun] at h; exact Option.noConfusion h
    | some res =>
      obtain ⟨vars, e⟩ := res
      rw [hrun] at h
      cases e with
      | none =>
        simp only [Option.some.injEq] at h
        subst h
        exact Option.noConfusion herr
      | some err1 =>
        simp only [Option.some.injEq] at h
        subst h
        simp only [Option.some.injEq] at herr
        subst herr
        obtain ⟨init, last, h1, h2, h3⟩ :=
          rangeLists_failed lib client config config.Lists _ vars err1 hrun
        simp only [initVars, List.nil_append] at h1
        exact ⟨err1, init, last, rfl, h1, h2, h3⟩

theorem refreshMilestones_err {σ : Type} (lib : Stdlib) (client : gogithub.Client σ)
    (remote : σ) (gr : githubRender) (config : githubConfig) (r : Fetched σ)
    (h : getMilestones lib client remote config = some r) :
    ∃ out, refreshMilestones lib client remote gr config = some out ∧
      out.err = r.err ∧ out.calls = r.calls := by
  unfold refreshMilestones
  rw [h]
  simp only
  cases herr : r.err with
  | none => exact ⟨_, rfl, rfl, rfl⟩
  | some err => exact ⟨_, rfl, rfl, rfl⟩

/-- C11.  Take a run of `getMilestones` that returns, and in the sequence of its calls
one that failed with `err`.  Then it is the first and only one that failed (all calls
before it were answered), no call follows it, `getMilestones` returns exactly `err`,
and `refreshMilestones` returns `err` to its caller after the same calls. -/
theorem failure_aborts_and_propagates {σ : Type} (lib : Stdlib)
    (client : gogithub.Client σ) (remote : σ) (gr : githubRender) (config : githubConfig)
    (r : Fetched σ) (before after : List Call) (failed : Call) (err : String)
    (h : getMilestones lib client remote config = some r)
    (hcalls : r.calls = before ++ failed :: after)
    (hfailed : failed.reply = .error err) :
    (∀ c ∈ before, ∃ guff, c.reply = .ok guff) ∧
    after = [] ∧ r.err = some err ∧
    ∃ out, refreshMilestones lib client remote gr config = some out ∧
      out.err = some err ∧ out.calls = before ++ [failed] := by
  have hmem : failed ∈ r.calls := by rw [hcalls]; simp
  obtain ⟨out, hout, houterr, houtcalls⟩ :=
    refreshMilestones_err lib client remote gr config r h
  rcases getMilestones_calls lib client remote config r h with ⟨_, hall⟩ | hfail
  · obtain ⟨guff, hg⟩ := hall failed hmem
    rw [hfailed] at hg
    exact Except.noConfusion hg
  · obtain ⟨err1, init, last, herr, hlog, hlast, hinit⟩ := hfail
    rw [hcalls] at hlog
    have hafter : after = [] := by
      rcases List.eq_nil_or_concat after with hnil | ⟨mid, x, hx⟩
      · exact hnil
      · exfalso
        have hlog2 : (before ++ failed :: mid) ++ [x] = init ++ [last] := by
          rw [← hlog, hx]; simp
        have hinj := List.append_inj' hlog2 rfl
        have hin : failed ∈ init := by rw [← hinj.1]; simp
        obtain ⟨guff, hg⟩ := hinit failed hin
        rw [hfailed] at hg
        exact Except.noConfusion hg
    subst hafter
    have hinj := List.append_inj' hlog rfl
    have hlast2 : failed = last := by simpa using hinj.2
    subst hlast2
    rw [hfailed] at hlast
    have herr2 : err = err1 := by
      injection hlast
    subst herr2
    refine ⟨?_, rfl, herr, out, hout, by rw [houterr, herr], by rw [houtcalls, hcalls]⟩
    rw [hinj.1]
    exact hinit

/-- The theorem `failure_aborts_and_propagates` at the repository `acme/widgets` with
a remote side that answers the "open" request and fails the "closed" one. -/
theorem failure_aborts_and_propagates_witness :
    getMilestones goStdlib Example.failingClient () Example.config =
      some Example.fetchedFailed ∧
    Example.fetchedFailed.calls = [Example.callOpen] ++ Example.callClosedFailed :: [] ∧
    Example.callClosedFailed.reply = .error "502 Bad Gateway" ∧
    ((∀ c ∈ [Example.callOpen], ∃ guff, c.reply = .ok guff) ∧
      ([] : List Call) = [] ∧ Example.fetchedFailed.err = some "502 Bad Gateway" ∧
      ∃ out, refreshMilestones goStdlib Example.failingClient () ⟨[], 0, 0⟩
          Example.config = some out ∧
        out.err = some "502 Bad Gateway" ∧
        out.calls = [Example.callOpen] ++ [Example.callClosedFailed]) :=
  ⟨rfl, rfl, rfl,
    failure_aborts_and_propagates goStdlib Example.failingClient () ⟨[], 0, 0⟩
      Example.config Example.fetchedFailed [Example.callOpen] [] Example.callClosedFailed
      "502 Bad Gateway" rfl rfl rfl⟩

/-! ## Where the entries of the result come from -/

/-- The fields of the entry built from `v`. -/
theorem entryOf_fields (lib : Stdlib) (rName : String) (v : gogithub.Milestone)
    (m : githubMilestone) (h : entryOf lib rName v = some m) :
    m.Repo = rName ∧ v.Title = some m.Name ∧ v.HTMLURL = some m.URL ∧
    m.IsOpen = decide (v.State = some "open") ∧
    v.OpenIssues = some m.OpenIssues ∧ v.ClosedIssues = some m.ClosedIssues ∧
    m.CompleteMsg =
      lib.Sprintf2f (wrapInt (m.ClosedIssues * 100)) (wrapInt (m.OpenIssues + m.ClosedIssues)) ∧
    m.DueDate =
      (match v.DueOn with
       | some dueOn => "Due on " ++ lib.Format dueOn milestonesTimeFormat ++ "."
       | none => "No due date.") ∧
    m.UpdatedAt =
      (match v.UpdatedAt with
       | some updatedAt => lib.Format updatedAt milestonesTimeFormat
       | none => "") := by
  unfold entryOf at h
  cases ht : v.Title with
  | none => simp [ht] at h
  | some title =>
    cases hu : v.HTMLURL with
    | none => simp [ht, hu] at h
    | some url =>
      cases hs : v.State with
      | none => simp [ht, hu, hs] at h
      | some st =>
        cases ho : v.OpenIssues with
        | none => simp [ht, hu, hs, ho] at h
        | some o =>
          cases hc : v.ClosedIssues with
          | none => simp [ht, hu, hs, ho, hc] at h
          | some c =>
            simp only [ht, hu, hs, ho, hc, Option.some.injEq] at h
            subst h
            simp

theorem forall₂_exists_of_mem_right {α β : Type} (R : α → β → Prop) (l : List α)
    (l' : List β) (h : List.Forall₂ R l l') (b : β) (hb : b ∈ l') : ∃ a ∈ l, R a b := by
  induction h with
  | nil => simp at hb
  | cons hab _ ih =>
    rcases List.mem_cons.mp hb with hx | hx
    · subst hx; exact ⟨_, List.mem_cons_self _ _, hab⟩
    · obtain ⟨a, ha, hr⟩ := ih hx
      exact ⟨a, List.mem_cons_of_mem _ ha, hr⟩

/-- Every entry of the result of a successful run was built from a milestone of the
reply of one of its calls, one that `include` kept. -/
theorem mem_ret_origin {σ : Type} (lib : Stdlib) (client : gogithub.Client σ)
    (remote : σ) (config : githubConfig) (r : Fetched σ)
    (h : getMilestones lib client remote config = some r) (hok : r.err = none)
    (m : githubMilestone) (hm : m ∈ r.ret) :
    ∃ c ∈ r.calls, ∃ guff, c.reply = .ok guff ∧ ∃ v ∈ guff,
      includeOf config c.opts.State v = some true ∧
      entryOf lib (c.Owner ++ "/" ++ c.Repo) v = some m := by
  obtain ⟨parts, hret, hall, _⟩ := getMilestones_parts lib client remote config r h hok
  rw [hret] at hm
  have hm1 : m ∈ parts.flatten := (Stable_perm lib _).mem_iff.mp hm
  obtain ⟨part, hpart, hmpart⟩ := List.mem_flatten.mp hm1
  obtain ⟨c, hc, guff, hguff, hrange⟩ := forall₂_exists_of_mem_right _ _ _ hall part hpart
  obtain ⟨_, hmap⟩ := rangeGuff_spec lib config _ _ guff part hrange
  have hsome : some m ∈ part.map some := List.mem_map.mpr ⟨m, hmpart, rfl⟩
  rw [← hmap] at hsome
  obtain ⟨v, hv, hent⟩ := List.mem_map.mp hsome
  obtain ⟨hv1, hv2⟩ := List.mem_filter.mp hv
  refine ⟨c, hc, guff, hguff, v, hv1, ?_, hent⟩
  simpa using hv2

/-! ## The derived fields -/

/-- The loop body at a milestone with `openIssues = 0` and `closedIssues = 0` whose
title, URL and state are set and which `include` keeps: it appends the entry built
from it, with the completion message `fmt.Sprintf("%2.0f%%", float64(0)/float64(0))`,
and the loop goes on with the rest of the reply. -/
theorem zero_issues_loop_body (lib : Stdlib) (config : githubConfig)
    (rName state : String) (ret : List githubMilestone) (v : gogithub.Milestone)
    (guff : List gogithub.Milestone) (title url st : String)
    (hT : v.Title = some title) (hU : v.HTMLURL = some url) (hS : v.State = some st)
    (hO : v.OpenIssues = some 0) (hC : v.ClosedIssues = some 0)
    (hinc : includeOf config state v = some true) :
    ∃ m, entryOf lib rName v = some m ∧
      m.OpenIssues = 0 ∧ m.ClosedIssues = 0 ∧
      m.CompleteMsg = lib.Sprintf2f 0 0 ∧
      visitMilestone lib config rName state ret v = some (ret ++ [m]) ∧
      rangeGuff lib config rName state (v :: guff) ret =
        rangeGuff lib config rName state guff (ret ++ [m]) := by
  have hent : ∃ m, entryOf lib rName v = some m := by
    simp [entryOf, hT, hU, hS, hO, hC]
  obtain ⟨m, hm⟩ := hent
  obtain ⟨_, _, _, _, ho, hc, hmsg, _, _⟩ := entryOf_fields lib rName v m hm
  rw [hO] at ho
  rw [hC] at hc
  have ho1 : m.OpenIssues = 0 := by injection ho with ho; exact ho.symm
  have hc1 : m.ClosedIssues = 0 := by injection hc with hc; exact hc.symm
  have hmsg1 : m.CompleteMsg = lib.Sprintf2f 0 0 := by
    rw [hmsg, ho1, hc1]
    rfl
  have hvis : visitMilestone lib config rName state ret v = some (ret ++ [m]) := by
    simp [visitMilestone, hinc, hm]
  refine ⟨m, hm, ho1, hc1, hmsg1, hvis, ?_⟩
  simp only [rangeGuff, hvis]

/-- In the result of a successful run, the milestones without issues: each one of a
reply that `include` keeps has its entry in the result, and every entry with both
counts zero carries the one completion message `lib.Sprintf2f 0 0`. -/
theorem zero_issues_entries {σ : Type} (lib : Stdlib) (client : gogithub.Client σ)
    (remote : σ) (config : githubConfig) (r : Fetched σ)
    (h : getMilestones lib client remote config = some r) (hok : r.err = none) :
    (∀ c ∈ r.calls, ∀ guff, c.reply = .ok guff → ∀ v ∈ guff,
      v.OpenIssues = some 0 → v.ClosedIssues = some 0 →
      includeOf config c.opts.State v = some true →
      ∃ m, entryOf lib (c.Owner ++ "/" ++ c.Repo) v = some m ∧ m ∈ r.ret ∧
        m.OpenIssues = 0 ∧ m.ClosedIssues = 0 ∧ m.CompleteMsg = lib.Sprintf2f 0 0) ∧
    (∀ m ∈ r.ret, m.OpenIssues = 0 → m.ClosedIssues = 0 →
      m.CompleteMsg = lib.Sprintf2f 0 0) := by
  have hmsg0 : ∀ m : githubMilestone, m.OpenIssues = 0 → m.ClosedIssues = 0 →
      m.CompleteMsg =
        lib.Sprintf2f (wrapInt (m.ClosedIssues * 100))
          (wrapInt (m.OpenIssues + m.ClosedIssues)) →
      m.CompleteMsg = lib.Sprintf2f 0 0 := by
    intro m ho hc hmsg
    rw [hmsg, ho, hc]
    rfl
  refine ⟨?_, ?_⟩
  · intro c hc guff hguff v hv hO hC hinc
    obtain ⟨parts, hret, hall, _⟩ := getMilestones_parts lib client remote config r h hok
    have hperm : List.Perm r.ret parts.flatten := by rw [hret]; exact Stable_perm lib _
    obtain ⟨part, hpart, guff', hguff', hrange⟩ := forall₂_exists_of_mem _ _ _ hall c hc
    rw [hguff] at hguff'
    cases hguff'
    obtain ⟨_, hmap⟩ := rangeGuff_spec lib config _ _ guff part hrange
    have hvmem : entryOf lib (c.Owner ++ "/" ++ c.Repo) v ∈ part.map some := by
      rw [← hmap]
      refine List.mem_map.mpr ⟨v, List.mem_filter.mpr ⟨hv, ?_⟩, rfl⟩
      simp [hinc]
    obtain ⟨m, hm, hmeq⟩ := List.mem_map.mp hvmem
    obtain ⟨_, _, _, _, ho, hc2, hmsg, _, _⟩ := entryOf_fields lib _ v m hmeq.symm
    rw [hO] at ho
    rw [hC] at hc2
    have ho1 : m.OpenIssues = 0 := by injection ho with ho; exact ho.symm
    have hc1 : m.ClosedIssues = 0 := by injection hc2 with hc2; exact hc2.symm
    exact ⟨m, hmeq.symm, hperm.mem_iff.mpr (List.mem_flatten.mpr ⟨part, hpart, hm⟩),
      ho1, hc1, hmsg0 m ho1 hc1 hmsg⟩
  · intro m hm ho hc
    obtain ⟨c, _, guff, _, v, _, _, hent⟩ :=
      mem_ret_origin lib client remote config r h hok m hm
    obtain ⟨_, _, _, _, _, _, hmsg, _, _⟩ := entryOf_fields lib _ v m hent
    exact hmsg0 m ho hc hmsg

/-- C13.  Let the remote side answer every request, every milestone of a reply having
its title, URL, state and both issue counts set (and its close time where line 141
reads it); nothing is asked of the values of the counts.  Then `getMilestones` does
not panic and returns no error, also when milestones have `openIssues = 0` and
`closedIssues = 0`.  Each such milestone of a reply that `include` keeps has its entry
in the returned list, and every entry of that list with both counts zero carries one
and the same completion message, `fmt.Sprintf("%2.0f%%", float64(0)/float64(0))`.
(The division is one of `float64` values and yields NaN; the text is `"NaN%"`, see
the witness.) -/
theorem zero_issues_message {σ : Type} (lib : Stdlib) (client : gogithub.Client σ)
    (remote : σ) (config : githubConfig)
    (hclient : ∀ s owner repo opts, ∃ guff,
      (client.ListMilestones s owner repo opts).1 = .ok guff ∧
      ∀ v ∈ guff, noPanicOn config opts.State v = true) :
    ∃ r, getMilestones lib client remote config = some r ∧ r.err = none ∧
      (∀ c ∈ r.calls, ∀ guff, c.reply = .ok guff → ∀ v ∈ guff,
        v.OpenIssues = some 0 → v.ClosedIssues = some 0 →
        includeOf config c.opts.State v = some true →
        ∃ m, entryOf lib (c.Owner ++ "/" ++ c.Repo) v = some m ∧ m ∈ r.ret ∧
          m.OpenIssues = 0 ∧ m.ClosedIssues = 0 ∧ m.CompleteMsg = lib.Sprintf2f 0 0) ∧
      (∀ m ∈ r.ret, m.OpenIssues = 0 → m.ClosedIssues = 0 →
        m.CompleteMsg = lib.Sprintf2f 0 0) := by
  obtain ⟨r, hr, hok⟩ := getMilestones_returns lib client remote config hclient
  obtain ⟨h1, h2⟩ := zero_issues_entries lib client remote config r hr hok
  exact ⟨r, hr, hok, h1, h2⟩

/-- The theorem `zero_issues_message` at a remote side whose "open" reply holds `v2.0`
and `v3.0` without issues and whose "closed" reply holds `v0.5` without issues, with
the cutoff January 10, 2017: the run returns without error, and the entries of `v0.5`
and `v3.0` are in the result with the completion message `"NaN%"`. -/
theorem zero_issues_message_witness :
    (∀ s owner repo opts, ∃ guff,
      (Example.zeroClient.ListMilestones s owner repo opts).1 = .ok guff ∧
      ∀ v ∈ guff, noPanicOn Example.configSince opts.State v = true) ∧
    (∃ r, getMilestones goStdlib Example.zeroClient () Example.configSince = some r ∧
      r.err = none ∧
      (∀ c ∈ r.calls, ∀ guff, c.reply = .ok guff → ∀ v ∈ guff,
        v.OpenIssues = some 0 → v.ClosedIssues = some 0 →
        includeOf Example.configSince c.opts.State v = some true →
        ∃ m, entryOf goStdlib (c.Owner ++ "/" ++ c.Repo) v = some m ∧ m ∈ r.ret ∧
          m.OpenIssues = 0 ∧ m.ClosedIssues = 0 ∧
          m.CompleteMsg = goStdlib.Sprintf2f 0 0) ∧
      (∀ m ∈ r.ret, m.OpenIssues = 0 → m.ClosedIssues = 0 →
        m.CompleteMsg = goStdlib.Sprintf2f 0 0)) ∧
    getMilestones goStdlib Example.zeroClient () Example.configSince =
      some Example.fetchedZero ∧
    Example.fetchedZero.ret =
      [Example.entryClosedEmpty, Example.entryEmpty, Example.entryV2] ∧
    Example.openEmpty.OpenIssues = some 0 ∧ Example.openEmpty.ClosedIssues = some 0 ∧
    Example.closedEmpty.OpenIssues = some 0 ∧ Example.closedEmpty.ClosedIssues = some 0 ∧
    goStdlib.Sprintf2f 0 0 = "NaN%" ∧
    Example.entryEmpty.CompleteMsg = "NaN%" ∧
    Example.entryClosedEmpty.CompleteMsg = "NaN%" :=
  have hclient : ∀ s owner repo opts, ∃ guff,
      (Example.zeroClient.ListMilestones s owner repo opts).1 = .ok guff ∧
      ∀ v ∈ guff, noPanicOn Example.configSince opts.State v = true := by
    intro s owner repo opts
    by_cases hst : opts.State = "open"
    · refine ⟨[Example.openV2, Example.openEmpty], by simp [Example.zeroClient, hst], ?_⟩
      intro v hv
      rw [hst]
      simp only [List.mem_cons, List.mem_singleton, List.not_mem_nil, or_false] at hv
      rcases hv with hv | hv <;> subst hv <;> decide
    · refine ⟨[Example.closedEmpty], by simp [Example.zeroClient, hst], ?_⟩
      intro v hv
      simp only [List.mem_singleton] at hv
      subst hv
      simp [noPanicOn, hasEntryFields, Example.closedEmpty]
  ⟨hclient, zero_issues_message goStdlib Example.zeroClient () Example.configSince hclient,
    rfl, rfl, rfl, rfl, rfl, rfl, by decide, rfl, rfl⟩

/-- C14.  Every entry of the result of a successful run was built from a milestone
`v` of a reply, and its `DueDate` is `"No due date."` when `v.DueOn` is `nil`, and
otherwise `"Due on "`, the due date formatted with the layout `January 2 2006`, and
`"."`; so it has one of these two forms. -/
theorem dueDate_form {σ : Type} (lib : Stdlib) (client : gogithub.Client σ)
    (remote : σ) (config : githubConfig) (r : Fetched σ)
    (h : getMilestones lib client remote config = some r) (hok : r.err = none) :
    milestonesTimeFormat = "January 2 2006" ∧
    ∀ m ∈ r.ret,
      (∃ c ∈ r.calls, ∃ guff, c.reply = .ok guff ∧ ∃ v ∈ guff,
        entryOf lib (c.Owner ++ "/" ++ c.Repo) v = some m ∧
        (v.DueOn = none → m.DueDate = "No due date.") ∧
        (∀ dueOn, v.DueOn = some dueOn →
          m.DueDate = "Due on " ++ lib.Format dueOn "January 2 2006" ++ ".")) ∧
      (m.DueDate = "No due date." ∨
        ∃ dueOn, m.DueDate = "Due on " ++ lib.Format dueOn "January 2 2006" ++ ".") := by
  refine ⟨rfl, ?_⟩
  intro m hm
  obtain ⟨c, hc, guff, hguff, v, hv, _, hent⟩ :=
    mem_ret_origin lib client remote config r h hok m hm
  obtain ⟨_, _, _, _, _, _, _, hdue, _⟩ := entryOf_fields lib _ v m hent
  have hnone : v.DueOn = none → m.DueDate = "No due date." := by
    intro hd; rw [hdue, hd]
  have hsome : ∀ dueOn, v.DueOn = some dueOn →
      m.DueDate = "Due on " ++ lib.Format dueOn "January 2 2006" ++ "." := by
    intro dueOn hd; rw [hdue, hd]; rfl
  refine ⟨⟨c, hc, guff, hguff, v, hv, hent, hnone, hsome⟩, ?_⟩
  cases hd : v.DueOn with
  | none => exact Or.inl (hnone hd)
  | some dueOn => exact Or.inr ⟨dueOn, hsome dueOn hd⟩

/-- The theorem `dueDate_form` at the repository `acme/widgets`: `v2.0`, due on
June 1, 2017, reads `"Due on June 1 2017."`, and `v1.0`, without due date,
`"No due date."`. -/
theorem dueDate_form_witness :
    getMilestones goStdlib Example.acmeClient () Example.config = some Example.fetched ∧
    Example.fetched.err = none ∧
    (milestonesTimeFormat = "January 2 2006" ∧
      ∀ m ∈ Example.fetched.ret,
        (∃ c ∈ Example.fetched.calls, ∃ guff, c.reply = .ok guff ∧ ∃ v ∈ guff,
          entryOf goStdlib (c.Owner ++ "/" ++ c.Repo) v = some m ∧
          (v.DueOn = none → m.DueDate = "No due date.") ∧
          (∀ dueOn, v.DueOn = some dueOn →
            m.DueDate = "Due on " ++ goStdlib.Format dueOn "January 2 2006" ++ ".")) ∧
        (m.DueDate = "No due date." ∨
          ∃ dueOn, m.DueDate = "Due on " ++ goStdlib.Format dueOn "January 2 2006" ++ ".")) ∧
    Example.openV2.DueOn = some (Example.day 2017 6 1) ∧
    goStdlib.Format (Example.day 2017 6 1) "January 2 2006" = "June 1 2017" ∧
    Example.entryV2.DueDate = "Due on June 1 2017." ∧
    Example.closedV1.DueOn = none ∧ Example.entryV1.DueDate = "No due date." :=
  ⟨rfl, rfl, dueDate_form goStdlib Example.acmeClient () Example.config Example.fetched
    rfl rfl, rfl, by decide, rfl, rfl, rfl⟩

/-! ## Entries without a date -/

/-- C15.  Every entry of the result of a successful run was built from a milestone
`v` of a reply, and its `UpdatedAt` is `""` when `v.UpdatedAt` is `nil`.  In the
result an entry whose `UpdatedAt` does not parse with the layout `January 2 2006`
stands before every entry of the same state whose `UpdatedAt` parses to a time after
the zero time: the sort takes the zero time for its date. -/
theorem unparseable_dates_first {σ : Type} (lib : Stdlib) (client : gogithub.Client σ)
    (remote : σ) (config : githubConfig) (r : Fetched σ)
    (h : getMilestones lib client remote config = some r) (hok : r.err = none) :
    (∀ m ∈ r.ret, ∃ c ∈ r.calls, ∃ guff, c.reply = .ok guff ∧ ∃ v ∈ guff,
      entryOf lib (c.Owner ++ "/" ++ c.Repo) v = some m ∧
      (v.UpdatedAt = none → m.UpdatedAt = "")) ∧
    (∀ i j : Fin r.ret.length,
      (r.ret.get i).IsOpen = (r.ret.get j).IsOpen →
      (∃ e, lib.Parse "January 2 2006" (r.ret.get i).UpdatedAt = .error e) →
      (∃ t, lib.Parse "January 2 2006" (r.ret.get j).UpdatedAt = .ok t ∧
        Time.zero.Before t = true) →
      i < j ∧ updatedDate lib (r.ret.get i) = Time.zero) := by
  refine ⟨?_, ?_⟩
  · intro m hm
    obtain ⟨c, hc, guff, hguff, v, hv, _, hent⟩ :=
      mem_ret_origin lib client remote config r h hok m hm
    obtain ⟨_, _, _, _, _, _, _, _, hup⟩ := entryOf_fields lib _ v m hent
    exact ⟨c, hc, guff, hguff, v, hv, hent, fun hn => by rw [hup, hn]⟩
  · obtain ⟨parts, _, hret, _, _⟩ := getMilestones_ok lib client remote config r h hok
    have hsorted : r.ret.Pairwise (fun a b => Less lib b a = false) := by
      rw [hret]; exact Stable_sorted lib _
    rw [List.pairwise_iff_get] at hsorted
    rintro i j hsame ⟨e, he⟩ ⟨t, ht, hpos⟩
    have hdi : updatedDate lib (r.ret.get i) = Time.zero := by
      simp only [updatedDate, parsedOrZero, milestonesTimeFormat, he]
    have hdj : updatedDate lib (r.ret.get j) = t := by
      simp only [updatedDate, parsedOrZero, milestonesTimeFormat, ht]
    have hless : Less lib (r.ret.get i) (r.ret.get j) = true := by
      rw [Less_of_same_state lib _ _ hsame, hdi, hdj]
      exact hpos
    refine ⟨?_, hdi⟩
    by_contra hij
    rcases Nat.lt_or_ge j.val i.val with hlt | hge
    · have := hsorted j i hlt
      rw [hless] at this
      exact Bool.noConfusion this
    · have hji : i = j := Fin.ext (Nat.le_antisymm hge (Nat.le_of_not_lt hij))
      subst hji
      rw [he] at ht
      exact Except.noConfusion ht

/-- The theorem `unparseable_dates_first` at a run whose "open" reply holds `v2.0`,
`v3.0` without update time, and `v4.0`: the entry of `v3.0` has `UpdatedAt == ""`,
which does not parse, and stands first. -/
theorem unparseable_dates_first_witness :
    getMilestones goStdlib Example.emptyClient () Example.config =
      some Example.fetchedEmpty ∧
    Example.fetchedEmpty.err = none ∧
    ((∀ m ∈ Example.fetchedEmpty.ret, ∃ c ∈ Example.fetchedEmpty.calls, ∃ guff,
        c.reply = .ok guff ∧ ∃ v ∈ guff,
        entryOf goStdlib (c.Owner ++ "/" ++ c.Repo) v = some m ∧
        (v.UpdatedAt = none → m.UpdatedAt = "")) ∧
      (∀ i j : Fin Example.fetchedEmpty.ret.length,
        (Example.fetchedEmpty.ret.get i).IsOpen = (Example.fetchedEmpty.ret.get j).IsOpen →
        (∃ e, goStdlib.Parse "January 2 2006" (Example.fetchedEmpty.ret.get i).UpdatedAt
          = .error e) →
        (∃ t, goStdlib.Parse "January 2 2006" (Example.fetchedEmpty.ret.get j).UpdatedAt
          = .ok t ∧ Time.zero.Before t = true) →
        i < j ∧ updatedDate goStdlib (Example.fetchedEmpty.ret.get i) = Time.zero)) ∧
    Example.openEmpty.UpdatedAt = none ∧ Example.entryEmpty.UpdatedAt = "" ∧
    goStdlib.Parse "January 2 2006" "" = .error "bad month" ∧
    Example.fetchedEmpty.ret = [Example.entryEmpty, Example.entryV2, Example.entryV4] ∧
    goStdlib.Parse "January 2 2006" Example.entryV2.UpdatedAt =
      .ok (Example.day 2017 3 5) ∧
    Time.zero.Before (Example.day 2017 3 5) = true :=
  ⟨rfl, rfl, unparseable_dates_first goStdlib Example.emptyClient () Example.config
    Example.fetchedEmpty rfl rfl, rfl, rfl, rfl, rfl, rfl, by decide⟩

/-! ## The result as a rearrangement of what was fetched -/

theorem forall₂_sum_eq {α β : Type} (R : α → β → Prop) (f : α → Nat) (g : β → Nat)
    (l : List α) (l' : List β) (h : List.Forall₂ R l l')
    (hfg : ∀ a b, R a b → f a = g b) : (l.map f).sum = (l'.map g).sum := by
  induction h with
  | nil => rfl
  | cons hab _ ih => simp [hfg _ _ hab, ih]

theorem forall₂_of_map_eq_some {α β : Type} (f : α → Option β) (l : List α) (l' : List β)
    (h : l.map f = l'.map some) : List.Forall₂ (fun a b => f a = some b) l l' := by
  induction l generalizing l' with
  | nil =>
    cases l' with
    | nil => exact List.Forall₂.nil
    | cons b l' => simp at h
  | cons a l ih =>
    cases l' with
    | nil => simp at h
    | cons b l' =>
      simp only [List.map_cons, List.cons.injEq] at h
      exact List.Forall₂.cons h.1 (ih l' h.2)

/-- C17.  The list a successful `getMilestones` returns is a rearrangement of the
retained milestones in fetch order: the calls go through the resolved repositories in
order, "open" before "closed"; each call contributes, in the order of its reply, one
entry for each milestone `include` keeps, with `Repo == Owner + "/" + Repo` and
`IsOpen == (*v.State == "open")`; `parts.flatten` is the list of all of them.  The
length of the result is the number of milestones kept. -/
theorem result_is_rearrangement_of_retained {σ : Type} (lib : Stdlib)
    (client : gogithub.Client σ) (remote : σ) (config : githubConfig) (r : Fetched σ)
    (h : getMilestones lib client remote config = some r) (hok : r.err = none) :
    ∃ parts : List (List githubMilestone),
      r.calls.map Call.request = (resolvedRepositories config.Lists).flatMap
        (fun orb => [requestOf config orb "open", requestOf config orb "closed"]) ∧
      List.Forall₂ (fun (c : Call) (part : List githubMilestone) =>
        ∃ guff, c.reply = .ok guff ∧
          List.Forall₂ (fun (v : gogithub.Milestone) (m : githubMilestone) =>
              entryOf lib (c.Owner ++ "/" ++ c.Repo) v = some m ∧
              m.Repo = c.Owner ++ "/" ++ c.Repo ∧
              m.IsOpen = decide (v.State = some "open"))
            (guff.filter (fun v => includeOf config c.opts.State v == some true)) part)
        r.calls parts ∧
      List.Perm r.ret parts.flatten ∧
      r.ret.length = (r.calls.map (fun c =>
        match c.reply with
        | .ok guff =>
          (guff.filter (fun v => includeOf config c.opts.State v == some true)).length
        | .error _ => 0)).sum := by
  obtain ⟨parts, hret, hall, hreq⟩ := getMilestones_parts lib client remote config r h hok
  have hperm : List.Perm r.ret parts.flatten := by rw [hret]; exact Stable_perm lib _
  have hall2 : List.Forall₂ (fun (c : Call) (part : List githubMilestone) =>
        ∃ guff, c.reply = .ok guff ∧
          List.Forall₂ (fun (v : gogithub.Milestone) (m : githubMilestone) =>
              entryOf lib (c.Owner ++ "/" ++ c.Repo) v = some m ∧
              m.Repo = c.Owner ++ "/" ++ c.Repo ∧
              m.IsOpen = decide (v.State = some "open"))
            (guff.filter (fun v => includeOf config c.opts.State v == some true)) part)
        r.calls parts := by
    refine hall.imp ?_
    rintro c part ⟨guff, hguff, hrange⟩
    obtain ⟨_, hmap⟩ := rangeGuff_spec lib config _ _ guff part hrange
    refine ⟨guff, hguff, (forall₂_of_map_eq_some _ _ _ hmap).imp ?_⟩
    intro v m hent
    obtain ⟨h1, _, _, h4, _⟩ := entryOf_fields lib _ v m hent
    exact ⟨hent, h1, h4⟩
  refine ⟨parts, hreq, hall2, hperm, ?_⟩
  rw [hperm.length_eq, List.length_flatten]
  symm
  refine forall₂_sum_eq _ _ _ _ _ hall2 ?_
  rintro c part ⟨guff, hguff, hf⟩
  rw [hguff]
  exact hf.length_eq

/-- The theorem `result_is_rearrangement_of_retained` at the repository `acme/widgets`
with the cutoff January 10, 2017: one milestone of the "open" reply and one of the
three of the "closed" reply are kept, and the result has two entries. -/
theorem result_is_rearrangement_of_retained_witness :
    getMilestones goStdlib Example.acmeClient () Example.configSince =
      some Example.fetchedSince ∧
    Example.fetchedSince.err = none ∧
    (∃ parts : List (List githubMilestone),
      Example.fetchedSince.calls.map Call.request =
        (resolvedRepositories Example.configSince.Lists).flatMap
          (fun orb => [requestOf Example.configSince orb "open",
                       requestOf Example.configSince orb "closed"]) ∧
      List.Forall₂ (fun (c : Call) (part : List githubMilestone) =>
        ∃ guff, c.reply = .ok guff ∧
          List.Forall₂ (fun (v : gogithub.Milestone) (m : githubMilestone) =>
              entryOf goStdlib (c.Owner ++ "/" ++ c.Repo) v = some m ∧
              m.Repo = c.Owner ++ "/" ++ c.Repo ∧
              m.IsOpen = decide (v.State = some "open"))
            (guff.filter
              (fun v => includeOf Example.configSince c.opts.State v == some true)) part)
        Example.fetchedSince.calls parts ∧
      List.Perm Example.fetchedSince.ret parts.flatten ∧
      Example.fetchedSince.ret.length = (Example.fetchedSince.calls.map (fun c =>
        match c.reply with
        | .ok guff =>
          (guff.filter
            (fun v => includeOf Example.configSince c.opts.State v == some true)).length
        | .error _ => 0)).sum) ∧
    Example.fetchedSince.ret = [Example.entryV1, Example.entryV2] ∧
    [Example.closedV1, Example.closedV11, Example.closedV09].filter
        (fun v => includeOf Example.configSince "closed" v == some true) =
      [Example.closedV1] :=
  ⟨rfl, rfl, result_is_rearrangement_of_retained goStdlib Example.acmeClient ()
    Example.configSince Example.fetchedSince rfl rfl, rfl, by decide⟩

/-! ## The completion message -/

theorem wrapInt_of_range (x : Int) (h0 : 0 ≤ x) (h1 : x < 2 ^ 63) : wrapInt x = x := by
  unfold wrapInt
  omega

theorem roundHalfEven_spec (n d : Nat) (hd : 0 < d) :
    2 * n ≤ (2 * Ref.roundHalfEven n d + 1) * d ∧
    2 * Ref.roundHalfEven n d * d ≤ 2 * n + d ∧
    ((2 * n = (2 * Ref.roundHalfEven n d + 1) * d ∨
      2 * Ref.roundHalfEven n d * d = 2 * n + d) → Ref.roundHalfEven n d % 2 = 0) ∧
    (n ≤ 100 * d → Ref.roundHalfEven n d ≤ 100) := by
  have hdiv : d * (n / d) + n % d = n := Nat.div_add_mod n d
  have hmod : n % d < d := Nat.mod_lt n hd
  have hq100 : n ≤ 100 * d → n / d ≤ 100 := by
    intro hn
    exact Nat.div_le_of_le_mul (by rw [Nat.mul_comm]; exact hn)
  have hq100r : n ≤ 100 * d → n / d = 100 → n % d = 0 := by
    intro hn hq
    rw [hq] at hdiv
    omega
  generalize hq : n / d = q at hdiv hq100 hq100r
  generalize hr : n % d = r at hdiv hmod hq100r
  have e1 : (2 * q + 1) * d = 2 * (d * q) + d := by ring
  have e2 : 2 * q * d = 2 * (d * q) := by ring
  have e3 : (2 * (q + 1) + 1) * d = 2 * (d * q) + 3 * d := by ring
  have e4 : 2 * (q + 1) * d = 2 * (d * q) + 2 * d := by ring
  generalize hQ : d * q = Q at hdiv e1 e2 e3 e4
  unfold Ref.roundHalfEven
  simp only [hq, hr]
  by_cases h1 : 2 * r < d
  · simp only [h1, if_true, e1, e2]
    refine ⟨by omega, by omega, by omega, hq100⟩
  · by_cases h2 : 2 * r > d
    · simp only [h1, h2, if_true, if_false, e3, e4]
      refine ⟨by omega, by omega, by omega, ?_⟩
      intro hn
      have := hq100 hn
      have := hq100r hn
      omega
    · by_cases h3 : q % 2 = 0
      · simp only [h1, h2, h3, if_true, if_false, e1, e2]
        refine ⟨by omega, by omega, fun _ => trivial, hq100⟩
      · simp only [h1, h2, h3, if_false, e3, e4]
        refine ⟨by omega, by omega, by omega, ?_⟩
        intro hn
        have := hq100 hn
        have := hq100r hn
        omega

theorem padded_digits : ∀ p, p ≤ 100 →
    String.mk (Ref.padLeft 2 ' ' (Ref.digits p)) =
      (if p < 10 then " " else "") ++ toString p := by
  decide

theorem sprintf2f_of_nat (n d : Nat) (hd : 0 < d) :
    Ref.sprintf2f (n : Int) (d : Int) =
      String.mk (Ref.padLeft 2 ' ' (Ref.digits (Ref.roundHalfEven n d))) ++ "%" := by
  unfold Ref.sprintf2f
  have hd1 : (d : Int) ≠ 0 := by omega
  have hn : ¬ ((n : Int) < 0) := by omega
  have hd2 : ¬ ((d : Int) < 0) := by omega
  simp [hd1, hn, hd2]

/-- C12, as the code has it.  Take an entry built, with the reference implementation
of the library, from a milestone with non-negative counts `o` open and `c` closed,
`0 < o + c < 2^45`.  Its `CompleteMsg` is the decimal digits of `p`, the whole number
nearest to `c * 100 / (o + c)` (of two equally near ones the even one, and `p ≤ 100`),
preceded by one blank when `p` has a single digit (the verb `%2.0f` pads to width 2),
and followed by `%`. -/
theorem completeMsg_padded_percentage (rName : String) (v : gogithub.Milestone)
    (m : githubMilestone) (o c : Int)
    (hm : entryOf goStdlib rName v = some m)
    (hO : v.OpenIssues = some o) (hC : v.ClosedIssues = some c)
    (ho : 0 ≤ o) (hc : 0 ≤ c) (hpos : 0 < o + c) (hsmall : o + c < 2 ^ 45) :
    ∃ p : Nat, p ≤ 100 ∧
      (2 * (p : Int) - 1) * (o + c) ≤ 2 * (c * 100) ∧
      2 * (c * 100) ≤ (2 * (p : Int) + 1) * (o + c) ∧
      ((2 * (c * 100) = (2 * (p : Int) + 1) * (o + c) ∨
        2 * (c * 100) = (2 * (p : Int) - 1) * (o + c)) → p % 2 = 0) ∧
      m.CompleteMsg = (if p < 10 then " " else "") ++ toString p ++ "%" := by
  obtain ⟨_, _, _, _, hmo, hmc, hmsg, _, _⟩ := entryOf_fields goStdlib rName v m hm
  rw [hO] at hmo
  rw [hC] at hmc
  have hmo1 : m.OpenIssues = o := by injection hmo with hmo; exact hmo.symm
  have hmc1 : m.ClosedIssues = c := by injection hmc with hmc; exact hmc.symm
  rw [hmo1, hmc1] at hmsg
  obtain ⟨n, hn⟩ : ∃ n : Nat, (n : Int) = c * 100 := ⟨(c * 100).toNat, by omega⟩
  obtain ⟨d, hd⟩ : ∃ d : Nat, (d : Int) = o + c := ⟨(o + c).toNat, by omega⟩
  have hdpos : 0 < d := by omega
  have hnd : n ≤ 100 * d := by omega
  rw [wrapInt_of_range (c * 100) (by omega) (by omega),
    wrapInt_of_range (o + c) (by omega) (by omega)] at hmsg
  have hmsg2 : m.CompleteMsg = Ref.sprintf2f (c * 100) (o + c) := hmsg
  rw [← hn, ← hd, sprintf2f_of_nat n d hdpos] at hmsg2
  obtain ⟨h1, h2, h3, h4⟩ := roundHalfEven_spec n d hdpos
  have hp := h4 hnd
  refine ⟨Ref.roundHalfEven n d, hp, ?_, ?_, ?_, ?_⟩
  · rw [← hn, ← hd]
    have : (2 * (Ref.roundHalfEven n d : Int) - 1) * (d : Int) =
        ((2 * Ref.roundHalfEven n d * d : Nat) : Int) - (d : Int) := by
      push_cast; ring
    rw [this]
    have h2i : ((2 * Ref.roundHalfEven n d * d : Nat) : Int) ≤ ((2 * n + d : Nat) : Int) :=
      Int.ofNat_le.mpr h2
    push_cast at h2i ⊢
    omega
  · rw [← hn, ← hd]
    have h1i : ((2 * n : Nat) : Int) ≤ (((2 * Ref.roundHalfEven n d + 1) * d : Nat) : Int) :=
      Int.ofNat_le.mpr h1
    push_cast at h1i ⊢
    exact h1i
  · rw [← hn, ← hd]
    rintro (he | he)
    · apply h3
      left
      have : ((2 * n : Nat) : Int) = (((2 * Ref.roundHalfEven n d + 1) * d : Nat) : Int) := by
        push_cast; exact he
      exact Int.ofNat.inj this
    · apply h3
      right
      have : ((2 * Ref.roundHalfEven n d * d : Nat) : Int) = ((2 * n + d : Nat) : Int) := by
        push_cast
        have e : (2 * (Ref.roundHalfEven n d : Int) - 1) * (d : Int) =
            2 * (Ref.roundHalfEven n d : Int) * (d : Int) - (d : Int) := by ring
        rw [e] at he
        omega
      exact Int.ofNat.inj this
  · rw [hmsg2, padded_digits _ hp]

/-- C12 as stated fails: the entry built from `v4.0`, with nineteen open issues and
one closed, has the completion message `" 5%"`, with a blank before the digit; it is
in the result of a successful run. -/
theorem completeMsg_digits_only_counterexample :
    Example.openV4.OpenIssues = some 19 ∧ Example.openV4.ClosedIssues = some 1 ∧
    entryOf goStdlib "acme/widgets" Example.openV4 = some Example.entryV4 ∧
    Example.entryV4.CompleteMsg = " 5%" ∧
    Example.entryV4.CompleteMsg ≠ "5%" ∧
    (getMilestones goStdlib Example.emptyClient () Example.config).map
        (fun r => (r.err, r.ret)) =
      some (none, [Example.entryEmpty, Example.entryV2, Example.entryV4]) := by
  decide

/-- The theorem `completeMsg_padded_percentage` at the milestone `v2.0`, with three
open issues and one closed: the message is `"25%"`. -/
theorem completeMsg_padded_percentage_witness :
    entryOf goStdlib "acme/widgets" Example.openV2 = some Example.entryV2 ∧
    Example.openV2.OpenIssues = some 3 ∧ Example.openV2.ClosedIssues = some 1 ∧
    (0 : Int) ≤ 3 ∧ (0 : Int) ≤ 1 ∧ (0 : Int) < 3 + 1 ∧ (3 : Int) + 1 < 2 ^ 45 ∧
    (∃ p : Nat, p ≤ 100 ∧
      (2 * (p : Int) - 1) * (3 + 1) ≤ 2 * (1 * 100) ∧
      2 * (1 * 100) ≤ (2 * (p : Int) + 1) * (3 + 1) ∧
      ((2 * (1 * 100) = (2 * (p : Int) + 1) * (3 + 1) ∨
        2 * (1 * 100) = (2 * (p : Int) - 1) * (3 + 1)) → p % 2 = 0) ∧
      Example.entryV2.CompleteMsg = (if p < 10 then " " else "") ++ toString p ++ "%") ∧
    Example.entryV2.CompleteMsg = "25%" :=
  ⟨rfl, rfl, rfl, by decide, by decide, by decide, by decide,
    completeMsg_padded_percentage "acme/widgets" Example.openV2 Example.entryV2 3 1
      rfl rfl rfl (by decide) (by decide) (by decide) (by decide), rfl⟩

end Github
